import Mathlib

/-!
# ThorVG shape core: path building, primitive generators and attribute state

A shallow embedding of `src/lib/tvgShape.cpp` and of `Scene::push` from
`src/lib/tvgScene.cpp`, in two layers.  In the first layer `float` values are
taken as exact rational numbers; it carries the structural properties (command
and point streams, dirty flags, frames) and the properties stated over exact
numbers.  The second layer, the namespace `Binary32`, repeats the functions whose
results depend on rounding, overflow, underflow, infinities or NaNs, with every
`float` and `double` operation rounded as IEEE-754 prescribes.  `size_t` values
are natural numbers and the C `int` results integers.  The private record
`Shape::Impl` becomes the structure `Impl`; every member function of `Shape`
becomes a function from the record (and the call's arguments) to the returned
value paired with the record after the call.
-/

namespace Tvg

/-! ## Data model -/

/-- Modelled from the spec: the `PathCommand` enumeration (declared in the public
header, outside `src/`); the four tags of the command stream. -/
inductive PathCommand where
  | Close
  | MoveTo
  | LineTo
  | CubicTo
  deriving DecidableEq, Repr

/-- Modelled from the spec: the `Point` record of the public header, a 2D
coordinate. -/
structure Point where
  x : ℚ
  y : ℚ
  deriving DecidableEq

/-- Modelled from the spec: the path record `ShapePath` (declared in
`tvgShapePath.h`, outside `src/`): an ordered command stream and an ordered
coordinate stream.  Reserved capacities are not part of the abstract state. -/
structure ShapePath where
  cmds : List PathCommand
  pts : List Point
  deriving DecidableEq

/-- Modelled from the spec: `ShapePath::reset`, which clears commands and
points. -/
def ShapePath.reset (_p : ShapePath) : ShapePath :=
  { cmds := [], pts := [] }

/-- Modelled from the spec: `ShapePath::grow`, a capacity hint that never
changes the stored streams. -/
def ShapePath.grow (p : ShapePath) (_cmdCnt _ptsCnt : Nat) : ShapePath :=
  p

/-- Modelled from the spec: `ShapePath::moveTo`, which appends one `MoveTo`
command and its single point. -/
def ShapePath.moveTo (p : ShapePath) (x y : ℚ) : ShapePath :=
  { cmds := p.cmds ++ [PathCommand.MoveTo], pts := p.pts ++ [⟨x, y⟩] }

/-- Modelled from the spec: `ShapePath::lineTo`, which appends one `LineTo`
command and its single point. -/
def ShapePath.lineTo (p : ShapePath) (x y : ℚ) : ShapePath :=
  { cmds := p.cmds ++ [PathCommand.LineTo], pts := p.pts ++ [⟨x, y⟩] }

/-- Modelled from the spec: `ShapePath::cubicTo`, which appends one `CubicTo`
command and its three points (two control points, then the end point). -/
def ShapePath.cubicTo (p : ShapePath) (cx1 cy1 cx2 cy2 x y : ℚ) : ShapePath :=
  { cmds := p.cmds ++ [PathCommand.CubicTo],
    pts := p.pts ++ [⟨cx1, cy1⟩, ⟨cx2, cy2⟩, ⟨x, y⟩] }

/-- Modelled from the spec: `ShapePath::close`, which appends one `Close`
command and no point. -/
def ShapePath.close (p : ShapePath) : ShapePath :=
  { cmds := p.cmds ++ [PathCommand.Close], pts := p.pts }

/-- Modelled from the spec: `ShapePath::append`, the bulk append of the first
`cmdCnt` supplied commands and the first `ptsCnt` supplied points. -/
def ShapePath.append (p : ShapePath) (cmds : List PathCommand) (cmdCnt : Nat)
    (pts : List Point) (ptsCnt : Nat) : ShapePath :=
  { cmds := p.cmds ++ cmds.take cmdCnt, pts := p.pts ++ pts.take ptsCnt }

/-- Modelled from the spec: the `RenderUpdateFlag` enumeration (declared outside
`src/`), a bitmask over the categories Path, Fill and Transform; each category
is one bit. -/
def RenderUpdateFlag.Path : Nat := 1

/-- Modelled from the spec: the Fill bit of `RenderUpdateFlag`. -/
def RenderUpdateFlag.Fill : Nat := 2

/-- Modelled from the spec: the Transform bit of `RenderUpdateFlag`. -/
def RenderUpdateFlag.Transform : Nat := 4

/-- Whether the bits of `bit` are all set in the flag word `flag`. -/
def flagSet (flag bit : Nat) : Bool :=
  flag &&& bit == bit

/-- Modelled from the spec: the private record `Shape::Impl` (declared in
`tvgShapeImpl.h`, outside `src/`): the owned path, the four colour channels
`color[0..3]`, the uniform scale, the rotation in degrees and the dirty-flag
word. -/
structure Impl where
  path : ShapePath
  color : Nat × Nat × Nat × Nat
  scale : ℚ
  rotate : ℚ
  flag : Nat
  deriving DecidableEq

/-- The constant `PATH_KAPPA = 0.552284f`, as an exact number. -/
def PATH_KAPPA : ℚ := 552284 / 1000000

/-- The constant `FLT_EPSILON` of `<cfloat>`: `2⁻²³`. -/
def FLT_EPSILON : ℚ := 1 / 8388608

/-- The C function `fabsf`, on exact numbers. -/
def fabsf (v : ℚ) : ℚ :=
  if v < 0 then -v else v

/-! ## Operations of `Shape` -/

/-- `Shape::reset`. -/
def Shape.reset (impl : Impl) : Int × Impl :=
  let path := impl.path.reset
  (0, { impl with path := path, flag := impl.flag ||| RenderUpdateFlag.Path })

/-- `Shape::appendPath`; the counts are `size_t`, hence natural numbers. -/
def Shape.appendPath (impl : Impl) (cmds : List PathCommand) (cmdCnt : Nat)
    (pts : List Point) (ptsCnt : Nat) : Int × Impl :=
  if cmdCnt < 0 ∨ ptsCnt < 0 then (-1, impl)
  else
    let path := impl.path.grow cmdCnt ptsCnt
    let path := path.append cmds cmdCnt pts ptsCnt
    (0, { impl with path := path, flag := impl.flag ||| RenderUpdateFlag.Path })

/-- `Shape::moveTo`. -/
def Shape.moveTo (impl : Impl) (x y : ℚ) : Int × Impl :=
  let path := impl.path.moveTo x y
  (0, { impl with path := path, flag := impl.flag ||| RenderUpdateFlag.Path })

/-- `Shape::lineTo`. -/
def Shape.lineTo (impl : Impl) (x y : ℚ) : Int × Impl :=
  let path := impl.path.lineTo x y
  (0, { impl with path := path, flag := impl.flag ||| RenderUpdateFlag.Path })

/-- `Shape::cubicTo`. -/
def Shape.cubicTo (impl : Impl) (cx1 cy1 cx2 cy2 x y : ℚ) : Int × Impl :=
  let path := impl.path.cubicTo cx1 cy1 cx2 cy2 x y
  (0, { impl with path := path, flag := impl.flag ||| RenderUpdateFlag.Path })

/-- `Shape::close`. -/
def Shape.close (impl : Impl) : Int × Impl :=
  let path := impl.path.close
  (0, { impl with path := path, flag := impl.flag ||| RenderUpdateFlag.Path })

/-- `Shape::appendCircle`. -/
def Shape.appendCircle (impl : Impl) (cx cy radiusW radiusH : ℚ) : Int × Impl :=
  let halfKappaW := radiusW * PATH_KAPPA
  let halfKappaH := radiusH * PATH_KAPPA
  let path := impl.path.grow 6 13
  let path := path.moveTo cx (cy - radiusH)
  let path := path.cubicTo (cx + halfKappaW) (cy - radiusH) (cx + radiusW) (cy - halfKappaH)
    (cx + radiusW) cy
  let path := path.cubicTo (cx + radiusW) (cy + halfKappaH) (cx + halfKappaW) (cy + radiusH)
    cx (cy + radiusH)
  let path := path.cubicTo (cx - halfKappaW) (cy + radiusH) (cx - radiusW) (cy + halfKappaH)
    (cx - radiusW) cy
  let path := path.cubicTo (cx - radiusW) (cy - halfKappaH) (cx - halfKappaW) (cy - radiusH)
    cx (cy - radiusH)
  let path := path.close
  (0, { impl with path := path, flag := impl.flag ||| RenderUpdateFlag.Path })

/-- `Shape::appendRect`. -/
def Shape.appendRect (impl : Impl) (x y w h cornerRadius : ℚ) : Int × Impl :=
  let min := (if w < h then w else h) * (1 / 2)
  let cornerRadius := if cornerRadius > min then min else cornerRadius
  if cornerRadius = 0 then
    let path := impl.path.grow 5 4
    let path := path.moveTo x y
    let path := path.lineTo (x + w) y
    let path := path.lineTo (x + w) (y + h)
    let path := path.lineTo x (y + h)
    let path := path.close
    (0, { impl with path := path, flag := impl.flag ||| RenderUpdateFlag.Path })
  else if w = h ∧ cornerRadius * 2 = w then
    Shape.appendCircle impl (x + w * (1 / 2)) (y + h * (1 / 2)) cornerRadius cornerRadius
  else
    let halfKappa := cornerRadius * (1 / 2)
    let path := impl.path.grow 10 17
    let path := path.moveTo (x + cornerRadius) y
    let path := path.lineTo (x + w - cornerRadius) y
    let path := path.cubicTo (x + w - cornerRadius + halfKappa) y (x + w)
      (y + cornerRadius - halfKappa) (x + w) (y + cornerRadius)
    let path := path.lineTo (x + w) (y + h - cornerRadius)
    let path := path.cubicTo (x + w) (y + h - cornerRadius + halfKappa)
      (x + w - cornerRadius + halfKappa) (y + h) (x + w - cornerRadius) (y + h)
    let path := path.lineTo (x + cornerRadius) (y + h)
    let path := path.cubicTo (x + cornerRadius - halfKappa) (y + h) x
      (y + h - cornerRadius + halfKappa) x (y + h - cornerRadius)
    let path := path.lineTo x (y + cornerRadius)
    let path := path.cubicTo x (y + cornerRadius - halfKappa) (x + cornerRadius - halfKappa) y
      (x + cornerRadius) y
    let path := path.close
    (0, { impl with path := path, flag := impl.flag ||| RenderUpdateFlag.Path })

/-- `Shape::fill(size_t, size_t, size_t, size_t)`, the setter. -/
def Shape.fill (impl : Impl) (r g b a : Nat) : Int × Impl :=
  (0, { impl with color := (r, g, b, a), flag := impl.flag ||| RenderUpdateFlag.Fill })

/-- One out-parameter of the getter: a null pointer is `none` and stays so, a
pointer to a cell is `some` of the cell's content and receives `v`. -/
def writeOut (ptr : Option Nat) (v : Nat) : Option Nat :=
  match ptr with
  | none => none
  | some _ => some v

/-- `Shape::fill(size_t*, size_t*, size_t*, size_t*) const`, the getter: the
result, the four cells after the call, and the (untouched) record. -/
def Shape.fillConst (impl : Impl) (r g b a : Option Nat) :
    Int × (Option Nat × Option Nat × Option Nat × Option Nat) × Impl :=
  let r := writeOut r impl.color.1
  let g := writeOut g impl.color.2.1
  let b := writeOut b impl.color.2.2.1
  let a := writeOut a impl.color.2.2.2
  (0, (r, g, b, a), impl)

/-- `Shape::scale(float)`, the setter. -/
def Shape.scale (impl : Impl) (factor : ℚ) : Int × Impl :=
  if fabsf factor < FLT_EPSILON ∨ fabsf (factor - impl.scale) ≤ FLT_EPSILON then (-1, impl)
  else (0, { impl with scale := factor, flag := impl.flag ||| RenderUpdateFlag.Transform })

/-- `Shape::rotate(float)`, the setter. -/
def Shape.rotate (impl : Impl) (degree : ℚ) : Int × Impl :=
  if fabsf (degree - impl.rotate) ≤ FLT_EPSILON then (-1, impl)
  else (0, { impl with rotate := degree, flag := impl.flag ||| RenderUpdateFlag.Transform })

/-- `Shape::scale() const`, the accessor. -/
def Shape.scaleConst (impl : Impl) : ℚ :=
  impl.scale

/-- `Shape::rotate() const`, the accessor. -/
def Shape.rotateConst (impl : Impl) : ℚ :=
  impl.rotate

/-- Modelled from the spec: `ShapePath::bounds` (declared in `tvgShapePath.h`,
outside `src/`): the axis-aligned box over all points of the point stream, a
min/max fold starting at the first point; it reports failure (`false`) when the
path has no point and then leaves the out-parameters as they were passed. -/
def ShapePath.bounds (p : ShapePath) (x y w h : ℚ) : Bool × (ℚ × ℚ × ℚ × ℚ) :=
  match p.pts with
  | [] => (false, (x, y, w, h))
  | p0 :: rest =>
    let mn : Point := rest.foldl (fun m q => ⟨min m.x q.x, min m.y q.y⟩) p0
    let mx : Point := rest.foldl (fun m q => ⟨max m.x q.x, max m.y q.y⟩) p0
    (true, (mn.x, mn.y, mx.x - mn.x, mx.y - mn.y))

/-- `Shape::bounds`: the result, the four out-parameters after the call, and the
(untouched) record. -/
def Shape.bounds (impl : Impl) (x y w h : ℚ) : Int × (ℚ × ℚ × ℚ × ℚ) × Impl :=
  let r := impl.path.bounds x y w h
  if !r.1 then (-1, r.2, impl) else (0, r.2, impl)

/-- `Shape::pathCommands`: the command count and the stored commands. -/
def Shape.pathCommands (impl : Impl) : Nat × List PathCommand :=
  (impl.path.cmds.length, impl.path.cmds)

/-- `Shape::pathCoords`: the point count and the stored points. -/
def Shape.pathCoords (impl : Impl) : Nat × List Point :=
  (impl.path.pts.length, impl.path.pts)

/-- The conversion of a signed C integer to the 64-bit `size_t` of the count
parameters of `Shape::appendPath`, as done at the call. -/
def size_t_ofInt (v : Int) : Nat :=
  (v % 2 ^ 64).toNat

/-! ## Operations of `Scene` -/

/-- Modelled from the spec: the `Result` enumeration of the public header; the
values used by `tvgScene.cpp`. -/
inductive Result where
  | Success
  | InsufficientCondition
  | FailedAllocation
  | MemoryCorruption
  deriving DecidableEq, Repr

/-- Modelled from the spec: the private record `Scene::Impl` (declared outside
`src/`): the ordered sequence `paints` of owned children. -/
structure SceneImpl (Paint : Type) where
  paints : List Paint

/-- `Scene::push`.  The handle `pImpl` and the passed `unique_ptr` may be null
(`none`); the result is paired with the scene's record after the call. -/
def Scene.push {Paint : Type} (pImpl : Option (SceneImpl Paint)) (paint : Option Paint) :
    Result × Option (SceneImpl Paint) :=
  match pImpl with
  | none => (Result.MemoryCorruption, none)
  | some impl =>
    match paint with
    | none => (Result.MemoryCorruption, some impl)
    | some p => (Result.Success, some { paints := impl.paints ++ [p] })

/-! ## Auxiliary definitions for the statements -/

/-- A freshly built shape: empty path, colour `(0,0,0,0)`, scale `1`, rotation
`0`, no dirty flag. -/
def emptyShape : Impl :=
  { path := { cmds := [], pts := [] }, color := (0, 0, 0, 0), scale := 1, rotate := 0,
    flag := 0 }

/-- The frame of a path-mutating call from `old` to `new`: the Path flag is set
afterwards, and the Fill and Transform flags, the fill colour, the scale and
the rotation are as before. -/
def pathOnlyDirtied (old new : Impl) : Prop :=
  flagSet new.flag RenderUpdateFlag.Path = true ∧
  flagSet new.flag RenderUpdateFlag.Fill = flagSet old.flag RenderUpdateFlag.Fill ∧
  flagSet new.flag RenderUpdateFlag.Transform = flagSet old.flag RenderUpdateFlag.Transform ∧
  new.color = old.color ∧ new.scale = old.scale ∧ new.rotate = old.rotate

instance (old new : Impl) : Decidable (pathOnlyDirtied old new) := by
  unfold pathOnlyDirtied
  infer_instance

/-- The number of points a command consumes: MoveTo and LineTo 1, CubicTo 3,
Close 0. -/
def pointArity : PathCommand → Nat
  | PathCommand.Close => 0
  | PathCommand.MoveTo => 1
  | PathCommand.LineTo => 1
  | PathCommand.CubicTo => 3

/-- The total number of points consumed by a command stream read in order. -/
def consumed (cmds : List PathCommand) : Nat :=
  (cmds.map pointArity).sum

/-- The path invariant of the data model: the commands consume exactly the
points of the point stream. -/
def ShapePath.wellFormed (p : ShapePath) : Prop :=
  consumed p.cmds = p.pts.length

instance (p : ShapePath) : Decidable p.wellFormed := by
  unfold ShapePath.wellFormed
  infer_instance

/-- The public operations of `Shape`, with their arguments. -/
inductive ShapeOp where
  | reset
  | appendPath (cmds : List PathCommand) (cmdCnt : Nat) (pts : List Point) (ptsCnt : Nat)
  | moveTo (x y : ℚ)
  | lineTo (x y : ℚ)
  | cubicTo (cx1 cy1 cx2 cy2 x y : ℚ)
  | close
  | appendCircle (cx cy radiusW radiusH : ℚ)
  | appendRect (x y w h cornerRadius : ℚ)
  | fill (r g b a : Nat)
  | fillConst (r g b a : Option Nat)
  | scale (factor : ℚ)
  | rotate (degree : ℚ)
  | bounds (x y w h : ℚ)
  | scaleConst
  | rotateConst
  | pathCommands
  | pathCoords

/-- The record after one public operation.  The accessors `scale()`, `rotate()`,
`pathCommands` and `pathCoords` only read the record. -/
def ShapeOp.apply (op : ShapeOp) (impl : Impl) : Impl :=
  match op with
  | ShapeOp.reset => (Shape.reset impl).2
  | ShapeOp.appendPath cmds cmdCnt pts ptsCnt => (Shape.appendPath impl cmds cmdCnt pts ptsCnt).2
  | ShapeOp.moveTo x y => (Shape.moveTo impl x y).2
  | ShapeOp.lineTo x y => (Shape.lineTo impl x y).2
  | ShapeOp.cubicTo cx1 cy1 cx2 cy2 x y => (Shape.cubicTo impl cx1 cy1 cx2 cy2 x y).2
  | ShapeOp.close => (Shape.close impl).2
  | ShapeOp.appendCircle cx cy radiusW radiusH => (Shape.appendCircle impl cx cy radiusW radiusH).2
  | ShapeOp.appendRect x y w h cornerRadius => (Shape.appendRect impl x y w h cornerRadius).2
  | ShapeOp.fill r g b a => (Shape.fill impl r g b a).2
  | ShapeOp.fillConst r g b a => (Shape.fillConst impl r g b a).2.2
  | ShapeOp.scale factor => (Shape.scale impl factor).2
  | ShapeOp.rotate degree => (Shape.rotate impl degree).2
  | ShapeOp.bounds x y w h => (Shape.bounds impl x y w h).2.2
  | ShapeOp.scaleConst => impl
  | ShapeOp.rotateConst => impl
  | ShapeOp.pathCommands => impl
  | ShapeOp.pathCoords => impl

/-- The builder operations that keep the path invariant: every path-mutating
call except the bulk append. -/
def ShapeOp.isBuilder : ShapeOp → Bool
  | ShapeOp.reset => true
  | ShapeOp.moveTo _ _ => true
  | ShapeOp.lineTo _ _ => true
  | ShapeOp.cubicTo _ _ _ _ _ _ => true
  | ShapeOp.close => true
  | ShapeOp.appendCircle _ _ _ _ => true
  | ShapeOp.appendRect _ _ _ _ _ => true
  | _ => false

/-- The record after a sequence of public operations, run in order. -/
def runOps (ops : List ShapeOp) (impl : Impl) : Impl :=
  ops.foldl (fun s op => op.apply s) impl

/-- Whether the point `q` lies in the rectangle `[x, x+w] × [y, y+h]`. -/
def inBox (x y w h : ℚ) (q : Point) : Prop :=
  x ≤ q.x ∧ q.x ≤ x + w ∧ y ≤ q.y ∧ q.y ≤ y + h

instance (x y w h : ℚ) (q : Point) : Decidable (inBox x y w h q) := by
  unfold inBox
  infer_instance

/-- The commands emitted by `Shape::appendCircle`, in order (see
`appendCircle_path`). -/
def circleCmds : List PathCommand :=
  [PathCommand.MoveTo, PathCommand.CubicTo, PathCommand.CubicTo, PathCommand.CubicTo,
    PathCommand.CubicTo, PathCommand.Close]

/-- The points emitted by `Shape::appendCircle`, in order (see
`appendCircle_path`). -/
def circlePts (cx cy radiusW radiusH : ℚ) : List Point :=
  [⟨cx, cy - radiusH⟩,
   ⟨cx + radiusW * PATH_KAPPA, cy - radiusH⟩, ⟨cx + radiusW, cy - radiusH * PATH_KAPPA⟩,
   ⟨cx + radiusW, cy⟩,
   ⟨cx + radiusW, cy + radiusH * PATH_KAPPA⟩, ⟨cx + radiusW * PATH_KAPPA, cy + radiusH⟩,
   ⟨cx, cy + radiusH⟩,
   ⟨cx - radiusW * PATH_KAPPA, cy + radiusH⟩, ⟨cx - radiusW, cy + radiusH * PATH_KAPPA⟩,
   ⟨cx - radiusW, cy⟩,
   ⟨cx - radiusW, cy - radiusH * PATH_KAPPA⟩, ⟨cx - radiusW * PATH_KAPPA, cy - radiusH⟩,
   ⟨cx, cy - radiusH⟩]

/-- The commands emitted by the plain-rectangle branch of `Shape::appendRect`
(see `appendRect_branches`). -/
def rectCmds : List PathCommand :=
  [PathCommand.MoveTo, PathCommand.LineTo, PathCommand.LineTo, PathCommand.LineTo,
    PathCommand.Close]

/-- The points emitted by the plain-rectangle branch of `Shape::appendRect`
(see `appendRect_branches`). -/
def rectPts (x y w h : ℚ) : List Point :=
  [⟨x, y⟩, ⟨x + w, y⟩, ⟨x + w, y + h⟩, ⟨x, y + h⟩]

/-- The commands emitted by the rounded branch of `Shape::appendRect` (see
`appendRect_branches`). -/
def roundRectCmds : List PathCommand :=
  [PathCommand.MoveTo, PathCommand.LineTo, PathCommand.CubicTo, PathCommand.LineTo,
    PathCommand.CubicTo, PathCommand.LineTo, PathCommand.CubicTo, PathCommand.LineTo,
    PathCommand.CubicTo, PathCommand.Close]

/-- The points emitted by the rounded branch of `Shape::appendRect` for the
clamped radius `r` (see `appendRect_branches`). -/
def roundRectPts (x y w h r : ℚ) : List Point :=
  [⟨x + r, y⟩,
   ⟨x + w - r, y⟩,
   ⟨x + w - r + r * (1 / 2), y⟩, ⟨x + w, y + r - r * (1 / 2)⟩, ⟨x + w, y + r⟩,
   ⟨x + w, y + h - r⟩,
   ⟨x + w, y + h - r + r * (1 / 2)⟩, ⟨x + w - r + r * (1 / 2), y + h⟩, ⟨x + w - r, y + h⟩,
   ⟨x + r, y + h⟩,
   ⟨x + r - r * (1 / 2), y + h⟩, ⟨x, y + h - r + r * (1 / 2)⟩, ⟨x, y + h - r⟩,
   ⟨x, y + r⟩,
   ⟨x, y + r - r * (1 / 2)⟩, ⟨x + r - r * (1 / 2), y⟩, ⟨x + r, y⟩]

/-- The step from `old` to `new` is append-only and adds exactly `nc` commands
and `np` points: the old streams are prefixes of the new ones. -/
def appendedCount (old new : ShapePath) (nc np : Nat) : Prop :=
  old.cmds <+: new.cmds ∧ old.pts <+: new.pts ∧
  new.cmds.length = old.cmds.length + nc ∧ new.pts.length = old.pts.length + np

/-! ## IEEE-754 arithmetic -/

/-- Rounding of a rational to the nearest integer, ties to the even one. -/
def rne (t : ℚ) : Int :=
  if t - ⌊t⌋ < 1 / 2 then ⌊t⌋
  else if 1 / 2 < t - ⌊t⌋ then ⌊t⌋ + 1
  else if ⌊t⌋ % 2 = 0 then ⌊t⌋ else ⌊t⌋ + 1

/-- The exponent of the unit in the last place at a positive `q`, in the binary
format with `prec` significant bits whose least subnormal is `2 ^ qmin`. -/
def ulpExp (prec : Nat) (qmin : Int) (q : ℚ) : Int :=
  max (Int.log 2 q + 1 - prec) qmin

/-- Rounding of a non-negative rational to the nearest value of the format,
ties to even, the exponent range taken as unbounded above. -/
def roundPos (prec : Nat) (qmin : Int) (q : ℚ) : ℚ :=
  rne (q / 2 ^ ulpExp prec qmin q) * 2 ^ ulpExp prec qmin q

/-- Rounding of any rational to the nearest value of the format, ties to even,
the exponent range taken as unbounded above. -/
def roundQ (prec : Nat) (qmin : Int) (q : ℚ) : ℚ :=
  if q < 0 then -roundPos prec qmin (-q) else roundPos prec qmin q

/-- A value of an IEEE-754 binary format: a finite number, an infinity with its
sign, or a NaN.  The two zeros are identified. -/
inductive FVal where
  | fin (q : ℚ)
  | inf (neg : Bool)
  | nan
  deriving DecidableEq

/-- Rounding to nearest, ties to even, with overflow to infinity: the largest
finite value of the format is below `2 ^ (emax + 1)`. -/
def roundF (prec : Nat) (qmin emax : Int) (q : ℚ) : FVal :=
  if (2 : ℚ) ^ (emax + 1) ≤ |roundQ prec qmin q| then FVal.inf (decide (q < 0))
  else FVal.fin (roundQ prec qmin q)

/-- Rounding to binary32 (`float`). -/
def round32 (q : ℚ) : FVal :=
  roundF 24 (-149) 127 q

/-- Rounding to binary64 (`double`). -/
def round64 (q : ℚ) : FVal :=
  roundF 53 (-1074) 1023 q

/-- IEEE negation. -/
def FVal.neg : FVal → FVal
  | FVal.fin q => FVal.fin (-q)
  | FVal.inf s => FVal.inf (!s)
  | FVal.nan => FVal.nan

/-- IEEE absolute value (`fabsf`, `fabs`). -/
def FVal.abs : FVal → FVal
  | FVal.fin q => FVal.fin |q|
  | FVal.inf _ => FVal.inf false
  | FVal.nan => FVal.nan

/-- IEEE addition, with the rounding `rnd` of the format: a NaN operand or
opposite infinities give NaN. -/
def FVal.add (rnd : ℚ → FVal) : FVal → FVal → FVal
  | FVal.nan, _ => FVal.nan
  | _, FVal.nan => FVal.nan
  | FVal.inf s, FVal.inf t => if s = t then FVal.inf s else FVal.nan
  | FVal.inf s, FVal.fin _ => FVal.inf s
  | FVal.fin _, FVal.inf t => FVal.inf t
  | FVal.fin a, FVal.fin b => rnd (a + b)

/-- IEEE multiplication, with the rounding `rnd` of the format: a NaN operand
or zero times infinity give NaN. -/
def FVal.mul (rnd : ℚ → FVal) : FVal → FVal → FVal
  | FVal.nan, _ => FVal.nan
  | _, FVal.nan => FVal.nan
  | FVal.inf s, FVal.inf t => FVal.inf (xor s t)
  | FVal.inf s, FVal.fin b => if b = 0 then FVal.nan else FVal.inf (xor s (decide (b < 0)))
  | FVal.fin a, FVal.inf t => if a = 0 then FVal.nan else FVal.inf (xor (decide (a < 0)) t)
  | FVal.fin a, FVal.fin b => rnd (a * b)

/-- IEEE `<`: false as soon as an operand is NaN. -/
def FVal.lt : FVal → FVal → Bool
  | FVal.fin a, FVal.fin b => decide (a < b)
  | FVal.fin _, FVal.inf t => !t
  | FVal.inf s, FVal.fin _ => s
  | FVal.inf s, FVal.inf t => s && !t
  | _, _ => false

/-- IEEE `<=`: false as soon as an operand is NaN. -/
def FVal.le : FVal → FVal → Bool
  | FVal.fin a, FVal.fin b => decide (a ≤ b)
  | FVal.fin _, FVal.inf t => !t
  | FVal.inf s, FVal.fin _ => s
  | FVal.inf s, FVal.inf t => s || !t
  | _, _ => false

/-- IEEE `==`: false as soon as an operand is NaN. -/
def FVal.eq : FVal → FVal → Bool
  | FVal.fin a, FVal.fin b => decide (a = b)
  | FVal.inf s, FVal.inf t => decide (s = t)
  | _, _ => false

/-- The `float` sum `a + b`. -/
def fadd (a b : FVal) : FVal :=
  FVal.add round32 a b

/-- The `float` difference `a - b`. -/
def fsub (a b : FVal) : FVal :=
  FVal.add round32 a (FVal.neg b)

/-- The `float` product `a * b`. -/
def fmul (a b : FVal) : FVal :=
  FVal.mul round32 a b

/-- The `double` sum `a + b`; a `float` operand is promoted without change. -/
def dadd (a b : FVal) : FVal :=
  FVal.add round64 a b

/-- The `double` difference `a - b`. -/
def dsub (a b : FVal) : FVal :=
  FVal.add round64 a (FVal.neg b)

/-- The `double` product `a * b`. -/
def dmul (a b : FVal) : FVal :=
  FVal.mul round64 a b

/-- The conversion of a `double` to `float`, as done where a `double` is passed
for a `float` parameter. -/
def toFloat : FVal → FVal
  | FVal.fin q => round32 q
  | FVal.inf s => FVal.inf s
  | FVal.nan => FVal.nan

/-! ## The shape with `float` arithmetic

The same functions of `tvgShape.cpp` with every `float` and `double` operation
rounded as IEEE-754 prescribes. -/

namespace Binary32

/-- Modelled from the spec: the `Point` record of the public header, with
`float` coordinates. -/
structure Point where
  x : FVal
  y : FVal
  deriving DecidableEq

/-- Modelled from the spec: the path record `ShapePath` (declared in
`tvgShapePath.h`, outside `src/`), with `float` points. -/
structure ShapePath where
  cmds : List PathCommand
  pts : List Point
  deriving DecidableEq

/-- Modelled from the spec: `ShapePath::grow`, a capacity hint that never
changes the stored streams. -/
def ShapePath.grow (p : ShapePath) (_cmdCnt _ptsCnt : Nat) : ShapePath :=
  p

/-- Modelled from the spec: `ShapePath::moveTo`, which appends one `MoveTo`
command and its single point. -/
def ShapePath.moveTo (p : ShapePath) (x y : FVal) : ShapePath :=
  { cmds := p.cmds ++ [PathCommand.MoveTo], pts := p.pts ++ [⟨x, y⟩] }

/-- Modelled from the spec: `ShapePath::lineTo`, which appends one `LineTo`
command and its single point. -/
def ShapePath.lineTo (p : ShapePath) (x y : FVal) : ShapePath :=
  { cmds := p.cmds ++ [PathCommand.LineTo], pts := p.pts ++ [⟨x, y⟩] }

/-- Modelled from the spec: `ShapePath::cubicTo`, which appends one `CubicTo`
command and its three points (two control points, then the end point). -/
def ShapePath.cubicTo (p : ShapePath) (cx1 cy1 cx2 cy2 x y : FVal) : ShapePath :=
  { cmds := p.cmds ++ [PathCommand.CubicTo],
    pts := p.pts ++ [⟨cx1, cy1⟩, ⟨cx2, cy2⟩, ⟨x, y⟩] }

/-- Modelled from the spec: `ShapePath::close`, which appends one `Close`
command and no point. -/
def ShapePath.close (p : ShapePath) : ShapePath :=
  { cmds := p.cmds ++ [PathCommand.Close], pts := p.pts }

/-- Modelled from the spec: `ShapePath::bounds` (declared in `tvgShapePath.h`,
outside `src/`): the axis-aligned box over all points of the point stream, a
min/max fold with `float` comparisons starting at the first point, the extents
being the `float` differences of the extremes; it reports failure (`false`) when
the path has no point and then leaves the out-parameters as they were passed. -/
def ShapePath.bounds (p : ShapePath) (x y w h : FVal) : Bool × (FVal × FVal × FVal × FVal) :=
  match p.pts with
  | [] => (false, (x, y, w, h))
  | p0 :: rest =>
    let mn : Point := rest.foldl
      (fun m q => ⟨if FVal.lt q.x m.x then q.x else m.x, if FVal.lt q.y m.y then q.y else m.y⟩) p0
    let mx : Point := rest.foldl
      (fun m q => ⟨if FVal.lt m.x q.x then q.x else m.x, if FVal.lt m.y q.y then q.y else m.y⟩) p0
    (true, (mn.x, mn.y, fsub mx.x mn.x, fsub mx.y mn.y))

/-- Modelled from the spec: the private record `Shape::Impl` (declared in
`tvgShapeImpl.h`, outside `src/`), with `float` scale and rotation. -/
structure Impl where
  path : ShapePath
  color : Nat × Nat × Nat × Nat
  scale : FVal
  rotate : FVal
  flag : Nat
  deriving DecidableEq

/-- The constant `PATH_KAPPA = 0.552284f`: the `float` nearest to 0.552284. -/
def PATH_KAPPA : FVal :=
  round32 (552284 / 1000000)

/-- The constant `FLT_EPSILON` of `<cfloat>`: `2⁻²³`. -/
def FLT_EPSILON : FVal :=
  FVal.fin (1 / 8388608)

/-- The C function `fabsf`. -/
def fabsf (v : FVal) : FVal :=
  FVal.abs v

/-- `Shape::appendCircle`, in `float` arithmetic. -/
def Shape.appendCircle (impl : Impl) (cx cy radiusW radiusH : FVal) : Int × Impl :=
  let halfKappaW := fmul radiusW PATH_KAPPA
  let halfKappaH := fmul radiusH PATH_KAPPA
  let path := impl.path.grow 6 13
  let path := path.moveTo cx (fsub cy radiusH)
  let path := path.cubicTo (fadd cx halfKappaW) (fsub cy radiusH) (fadd cx radiusW)
    (fsub cy halfKappaH) (fadd cx radiusW) cy
  let path := path.cubicTo (fadd cx radiusW) (fadd cy halfKappaH) (fadd cx halfKappaW)
    (fadd cy radiusH) cx (fadd cy radiusH)
  let path := path.cubicTo (fsub cx halfKappaW) (fadd cy radiusH) (fsub cx radiusW)
    (fadd cy halfKappaH) (fsub cx radiusW) cy
  let path := path.cubicTo (fsub cx radiusW) (fsub cy halfKappaH) (fsub cx halfKappaW)
    (fsub cy radiusH) cx (fsub cy radiusH)
  let path := path.close
  (0, { impl with path := path, flag := impl.flag ||| RenderUpdateFlag.Path })

/-- `Shape::appendRect`, in `float` arithmetic; `halfKappa` is a `double`, and a
sum with it is formed in `double` and converted to `float` at the call. -/
def Shape.appendRect (impl : Impl) (x y w h cornerRadius : FVal) : Int × Impl :=
  let min := fmul (if FVal.lt w h then w else h) (FVal.fin (1 / 2))
  let cornerRadius := if FVal.lt min cornerRadius then min else cornerRadius
  if FVal.eq cornerRadius (FVal.fin 0) then
    let path := impl.path.grow 5 4
    let path := path.moveTo x y
    let path := path.lineTo (fadd x w) y
    let path := path.lineTo (fadd x w) (fadd y h)
    let path := path.lineTo x (fadd y h)
    let path := path.close
    (0, { impl with path := path, flag := impl.flag ||| RenderUpdateFlag.Path })
  else if FVal.eq w h && FVal.eq (fmul cornerRadius (FVal.fin 2)) w then
    Shape.appendCircle impl (fadd x (fmul w (FVal.fin (1 / 2))))
      (fadd y (fmul h (FVal.fin (1 / 2)))) cornerRadius cornerRadius
  else
    let halfKappa := dmul cornerRadius (FVal.fin (1 / 2))
    let path := impl.path.grow 10 17
    let path := path.moveTo (fadd x cornerRadius) y
    let path := path.lineTo (fsub (fadd x w) cornerRadius) y
    let path := path.cubicTo (toFloat (dadd (fsub (fadd x w) cornerRadius) halfKappa)) y
      (fadd x w) (toFloat (dsub (fadd y cornerRadius) halfKappa)) (fadd x w)
      (fadd y cornerRadius)
    let path := path.lineTo (fadd x w) (fsub (fadd y h) cornerRadius)
    let path := path.cubicTo (fadd x w) (toFloat (dadd (fsub (fadd y h) cornerRadius) halfKappa))
      (toFloat (dadd (fsub (fadd x w) cornerRadius) halfKappa)) (fadd y h)
      (fsub (fadd x w) cornerRadius) (fadd y h)
    let path := path.lineTo (fadd x cornerRadius) (fadd y h)
    let path := path.cubicTo (toFloat (dsub (fadd x cornerRadius) halfKappa)) (fadd y h) x
      (toFloat (dadd (fsub (fadd y h) cornerRadius) halfKappa)) x (fsub (fadd y h) cornerRadius)
    let path := path.lineTo x (fadd y cornerRadius)
    let path := path.cubicTo x (toFloat (dsub (fadd y cornerRadius) halfKappa))
      (toFloat (dsub (fadd x cornerRadius) halfKappa)) y (fadd x cornerRadius) y
    let path := path.close
    (0, { impl with path := path, flag := impl.flag ||| RenderUpdateFlag.Path })

/-- `Shape::scale(float)`, the setter, in `float` arithmetic. -/
def Shape.scale (impl : Impl) (factor : FVal) : Int × Impl :=
  if FVal.lt (fabsf factor) FLT_EPSILON || FVal.le (fabsf (fsub factor impl.scale)) FLT_EPSILON
  then (-1, impl)
  else (0, { impl with scale := factor, flag := impl.flag ||| RenderUpdateFlag.Transform })

/-- `Shape::rotate(float)`, the setter, in `float` arithmetic. -/
def Shape.rotate (impl : Impl) (degree : FVal) : Int × Impl :=
  if FVal.le (fabsf (fsub degree impl.rotate)) FLT_EPSILON then (-1, impl)
  else (0, { impl with rotate := degree, flag := impl.flag ||| RenderUpdateFlag.Transform })

/-- `Shape::rotate() const`, the accessor. -/
def Shape.rotateConst (impl : Impl) : FVal :=
  impl.rotate

/-- `Shape::bounds`: the result, the four out-parameters after the call, and the
(untouched) record. -/
def Shape.bounds (impl : Impl) (x y w h : FVal) : Int × (FVal × FVal × FVal × FVal) × Impl :=
  let r := impl.path.bounds x y w h
  if !r.1 then (-1, r.2, impl) else (0, r.2, impl)

/-- A freshly built shape: empty path, colour `(0,0,0,0)`, scale `1`, rotation
`0`, no dirty flag. -/
def emptyShape : Impl :=
  { path := { cmds := [], pts := [] }, color := (0, 0, 0, 0), scale := FVal.fin 1,
    rotate := FVal.fin 0, flag := 0 }

/-- The corner radius after the clamp of `Shape::appendRect`: `cornerRadius`,
replaced by the `float` product `min(w, h) * 0.5f` when it exceeds it. -/
def clampRadius (w h cornerRadius : FVal) : FVal :=
  if FVal.lt (fmul (if FVal.lt w h then w else h) (FVal.fin (1 / 2))) cornerRadius
  then fmul (if FVal.lt w h then w else h) (FVal.fin (1 / 2)) else cornerRadius

end Binary32

/-! ## Helper lemmas on the flag word -/

theorem flagSet_two_pow (f i : Nat) : flagSet f (2 ^ i) = f.testBit i := by
  unfold flagSet
  rw [Nat.and_two_pow]
  cases f.testBit i
  · simpa using (Nat.two_pow_pos i).ne
  · simp

theorem flagSet_or_two_pow (f i j : Nat) :
    flagSet (f ||| 2 ^ j) (2 ^ i) = (flagSet f (2 ^ i) || decide (j = i)) := by
  rw [flagSet_two_pow, flagSet_two_pow, Nat.testBit_or, Nat.testBit_two_pow]

theorem flagSet_or_Path_Path (f : Nat) :
    flagSet (f ||| RenderUpdateFlag.Path) RenderUpdateFlag.Path = true := by
  show flagSet (f ||| 2 ^ 0) (2 ^ 0) = true
  rw [flagSet_or_two_pow]; simp

theorem flagSet_or_Path_Fill (f : Nat) :
    flagSet (f ||| RenderUpdateFlag.Path) RenderUpdateFlag.Fill =
      flagSet f RenderUpdateFlag.Fill := by
  show flagSet (f ||| 2 ^ 0) (2 ^ 1) = flagSet f (2 ^ 1)
  rw [flagSet_or_two_pow]; simp

theorem flagSet_or_Path_Transform (f : Nat) :
    flagSet (f ||| RenderUpdateFlag.Path) RenderUpdateFlag.Transform =
      flagSet f RenderUpdateFlag.Transform := by
  show flagSet (f ||| 2 ^ 0) (2 ^ 2) = flagSet f (2 ^ 2)
  rw [flagSet_or_two_pow]; simp

theorem flagSet_or_Fill_Fill (f : Nat) :
    flagSet (f ||| RenderUpdateFlag.Fill) RenderUpdateFlag.Fill = true := by
  show flagSet (f ||| 2 ^ 1) (2 ^ 1) = true
  rw [flagSet_or_two_pow]; simp

theorem flagSet_or_Fill_Path (f : Nat) :
    flagSet (f ||| RenderUpdateFlag.Fill) RenderUpdateFlag.Path =
      flagSet f RenderUpdateFlag.Path := by
  show flagSet (f ||| 2 ^ 1) (2 ^ 0) = flagSet f (2 ^ 0)
  rw [flagSet_or_two_pow]; simp

theorem flagSet_or_Fill_Transform (f : Nat) :
    flagSet (f ||| RenderUpdateFlag.Fill) RenderUpdateFlag.Transform =
      flagSet f RenderUpdateFlag.Transform := by
  show flagSet (f ||| 2 ^ 1) (2 ^ 2) = flagSet f (2 ^ 2)
  rw [flagSet_or_two_pow]; simp

theorem flagSet_or_Transform_Transform (f : Nat) :
    flagSet (f ||| RenderUpdateFlag.Transform) RenderUpdateFlag.Transform = true := by
  show flagSet (f ||| 2 ^ 2) (2 ^ 2) = true
  rw [flagSet_or_two_pow]; simp

theorem flagSet_or_Transform_Path (f : Nat) :
    flagSet (f ||| RenderUpdateFlag.Transform) RenderUpdateFlag.Path =
      flagSet f RenderUpdateFlag.Path := by
  show flagSet (f ||| 2 ^ 2) (2 ^ 0) = flagSet f (2 ^ 0)
  rw [flagSet_or_two_pow]; simp

theorem flagSet_or_Transform_Fill (f : Nat) :
    flagSet (f ||| RenderUpdateFlag.Transform) RenderUpdateFlag.Fill =
      flagSet f RenderUpdateFlag.Fill := by
  show flagSet (f ||| 2 ^ 2) (2 ^ 1) = flagSet f (2 ^ 1)
  rw [flagSet_or_two_pow]; simp

/-! ## Helper lemmas on the clamping of the corner radius -/

theorem ite_lt_eq_min (w h : ℚ) : (if w < h then w else h) = min w h := by
  rcases lt_or_le w h with hlt | hle
  · rw [if_pos hlt, min_eq_left hlt.le]
  · rw [if_neg (not_lt.mpr hle), min_eq_right hle]

theorem clamp_eq_min (w h cornerRadius : ℚ) :
    (if cornerRadius > (if w < h then w else h) * (1 / 2)
      then (if w < h then w else h) * (1 / 2) else cornerRadius)
      = min cornerRadius (min w h / 2) := by
  have hm : (if w < h then w else h) * (1 / 2) = min w h / 2 := by
    rw [ite_lt_eq_min]; ring
  rw [hm]
  rcases lt_or_le (min w h / 2) cornerRadius with hlt | hle
  · rw [if_pos hlt, min_eq_right hlt.le]
  · rw [if_neg (not_lt.mpr hle), min_eq_left hle]

/-! ## Helper lemmas on `fabsf` and `FLT_EPSILON` -/

theorem fabsf_eq_abs (v : ℚ) : fabsf v = |v| := by
  unfold fabsf
  rcases lt_or_le v 0 with hlt | hle
  · rw [if_pos hlt, abs_of_neg hlt]
  · rw [if_neg (not_lt.mpr hle), abs_of_nonneg hle]

/-- `Shape::appendRect` depends on `cornerRadius` only through its clamped value
`min cornerRadius (min w h / 2)`. -/
theorem appendRect_unfold (impl : Impl) (x y w h cornerRadius : ℚ) :
    Shape.appendRect impl x y w h cornerRadius =
      Shape.appendRect impl x y w h (min cornerRadius (min w h / 2)) := by
  have hm : (if w < h then w else h) * (1 / 2) = min w h / 2 := by
    rw [ite_lt_eq_min]; ring
  have h1 := clamp_eq_min w h cornerRadius
  have h2 := clamp_eq_min w h (min cornerRadius (min w h / 2))
  rw [min_eq_left (min_le_right _ _)] at h2
  simp only [Shape.appendRect, h1, h2]

/-! ## The primitive generators -/

/-- C1: for every shape state and all `cx cy radiusW radiusH`, `appendCircle`
returns 0 and appends exactly the six commands MoveTo, CubicTo ×4, Close and
exactly thirteen points: the top point, then four cubics ending at the right,
bottom, left and top points, every control point offset from its adjacent arc
endpoint by `radiusW * 0.552284` in x or `radiusH * 0.552284` in y; the last
appended point is the MoveTo point. -/
theorem appendCircle_commands_points (impl : Impl) (cx cy radiusW radiusH : ℚ) :
    (Shape.appendCircle impl cx cy radiusW radiusH).1 = 0 ∧
    (Shape.appendCircle impl cx cy radiusW radiusH).2.path.cmds =
      impl.path.cmds ++ [PathCommand.MoveTo, PathCommand.CubicTo, PathCommand.CubicTo,
        PathCommand.CubicTo, PathCommand.CubicTo, PathCommand.Close] ∧
    (Shape.appendCircle impl cx cy radiusW radiusH).2.path.pts =
      impl.path.pts ++
        [⟨cx, cy - radiusH⟩,
         ⟨cx + radiusW * (552284 / 1000000), cy - radiusH⟩,
         ⟨cx + radiusW, cy - radiusH * (552284 / 1000000)⟩,
         ⟨cx + radiusW, cy⟩,
         ⟨cx + radiusW, cy + radiusH * (552284 / 1000000)⟩,
         ⟨cx + radiusW * (552284 / 1000000), cy + radiusH⟩,
         ⟨cx, cy + radiusH⟩,
         ⟨cx - radiusW * (552284 / 1000000), cy + radiusH⟩,
         ⟨cx - radiusW, cy + radiusH * (552284 / 1000000)⟩,
         ⟨cx - radiusW, cy⟩,
         ⟨cx - radiusW, cy - radiusH * (552284 / 1000000)⟩,
         ⟨cx - radiusW * (552284 / 1000000), cy - radiusH⟩,
         ⟨cx, cy - radiusH⟩] ∧
    (Shape.appendCircle impl cx cy radiusW radiusH).2.path.cmds.length =
      impl.path.cmds.length + 6 ∧
    (Shape.appendCircle impl cx cy radiusW radiusH).2.path.pts.length =
      impl.path.pts.length + 13 ∧
    (Shape.appendCircle impl cx cy radiusW radiusH).2.path.pts.getLast? =
      some ⟨cx, cy - radiusH⟩ := by
  simp [Shape.appendCircle, ShapePath.grow, ShapePath.moveTo, ShapePath.cubicTo,
    ShapePath.close, PATH_KAPPA]

/-- C5: clamping idempotence.  For every shape state, every `x y w h` and every
`cornerRadius ≥ min w h / 2`, `appendRect(x, y, w, h, cornerRadius)` gives the
same returned value and resulting state as `appendRect(x, y, w, h, min w h / 2)`. -/
theorem appendRect_clamp_idempotent (impl : Impl) (x y w h cornerRadius : ℚ)
    (hge : cornerRadius ≥ min w h / 2) :
    Shape.appendRect impl x y w h cornerRadius =
      Shape.appendRect impl x y w h (min w h / 2) := by
  rw [appendRect_unfold impl x y w h cornerRadius, min_eq_right hge]

/-- The witness of C5: corner radius 100 on a 10 × 6 rectangle. -/
theorem appendRect_clamp_idempotent_witness :
    (100 : ℚ) ≥ min 10 6 / 2 ∧
    Shape.appendRect emptyShape 1 2 10 6 100 =
      Shape.appendRect emptyShape 1 2 10 6 (min 10 6 / 2) :=
  ⟨by norm_num, appendRect_clamp_idempotent emptyShape 1 2 10 6 100 (by norm_num)⟩

/-! ## The transform setters -/

/-- C7: for every shape state and every factor with `|factor| ≥ FLT_EPSILON`
and `|factor - currentScale| > FLT_EPSILON`, `Shape::scale(factor)` returns 0,
the accessor then returns exactly `factor`, the Transform flag is set, and
rotation, colour, path and the Path and Fill flags are unchanged. -/
theorem scale_accepted (impl : Impl) (factor : ℚ)
    (hmag : |factor| ≥ FLT_EPSILON) (hdiff : |factor - impl.scale| > FLT_EPSILON) :
    (Shape.scale impl factor).1 = 0 ∧
    Shape.scaleConst (Shape.scale impl factor).2 = factor ∧
    flagSet (Shape.scale impl factor).2.flag RenderUpdateFlag.Transform = true ∧
    (Shape.scale impl factor).2.rotate = impl.rotate ∧
    (Shape.scale impl factor).2.color = impl.color ∧
    (Shape.scale impl factor).2.path = impl.path ∧
    flagSet (Shape.scale impl factor).2.flag RenderUpdateFlag.Path =
      flagSet impl.flag RenderUpdateFlag.Path ∧
    flagSet (Shape.scale impl factor).2.flag RenderUpdateFlag.Fill =
      flagSet impl.flag RenderUpdateFlag.Fill := by
  have hrej : ¬ (fabsf factor < FLT_EPSILON ∨ fabsf (factor - impl.scale) ≤ FLT_EPSILON) := by
    rw [fabsf_eq_abs, fabsf_eq_abs]
    intro h
    rcases h with h | h
    · exact absurd h (not_lt.mpr hmag)
    · exact absurd h (not_le.mpr hdiff)
  unfold Shape.scale Shape.scaleConst
  rw [if_neg hrej]
  refine ⟨rfl, rfl, ?_, rfl, rfl, rfl, ?_, ?_⟩
  · exact flagSet_or_Transform_Transform impl.flag
  · exact flagSet_or_Transform_Path impl.flag
  · exact flagSet_or_Transform_Fill impl.flag

/-- The witness of C7: `scale(2)` on a fresh shape (scale 1). -/
theorem scale_accepted_witness :
    (Shape.scale emptyShape 2).1 = 0 ∧
    Shape.scaleConst (Shape.scale emptyShape 2).2 = 2 ∧
    flagSet (Shape.scale emptyShape 2).2.flag RenderUpdateFlag.Transform = true := by
  have key := scale_accepted emptyShape 2 (by norm_num [FLT_EPSILON])
    (by norm_num [FLT_EPSILON, emptyShape])
  exact ⟨key.1, key.2.1, key.2.2.1⟩

/-! ## Dirty flags of the path-mutating calls -/

theorem pathOnlyDirtied_with (impl : Impl) (path : ShapePath) :
    pathOnlyDirtied impl
      { impl with path := path, flag := impl.flag ||| RenderUpdateFlag.Path } :=
  ⟨flagSet_or_Path_Path impl.flag, flagSet_or_Path_Fill impl.flag,
    flagSet_or_Path_Transform impl.flag, rfl, rfl, rfl⟩

theorem appendCircle_eq_with (impl : Impl) (cx cy radiusW radiusH : ℚ) :
    ∃ path : ShapePath, (Shape.appendCircle impl cx cy radiusW radiusH).2 =
      { impl with path := path, flag := impl.flag ||| RenderUpdateFlag.Path } :=
  ⟨_, rfl⟩

theorem appendRect_eq_with (impl : Impl) (x y w h cornerRadius : ℚ) :
    ∃ path : ShapePath, (Shape.appendRect impl x y w h cornerRadius).2 =
      { impl with path := path, flag := impl.flag ||| RenderUpdateFlag.Path } := by
  simp only [Shape.appendRect]
  split_ifs <;> exact ⟨_, rfl⟩

/-- C9: every path-mutating call (`reset`, `appendPath`, `moveTo`, `lineTo`,
`cubicTo`, `close`, `appendCircle`, and `appendRect` whatever its branch)
leaves the Path flag set, for every starting state and every argument, also
`reset` on an already-empty path; and the Fill and Transform flags, the fill
colour, the scale and the rotation are unchanged. -/
theorem path_mutation_sets_only_Path_flag (impl : Impl) :
    pathOnlyDirtied impl (Shape.reset impl).2 ∧
    flagSet (Shape.reset { impl with path := { cmds := [], pts := [] } }).2.flag
      RenderUpdateFlag.Path = true ∧
    (∀ (cmds : List PathCommand) (cmdCnt : Nat) (pts : List Point) (ptsCnt : Nat),
      pathOnlyDirtied impl (Shape.appendPath impl cmds cmdCnt pts ptsCnt).2) ∧
    (∀ x y : ℚ, pathOnlyDirtied impl (Shape.moveTo impl x y).2) ∧
    (∀ x y : ℚ, pathOnlyDirtied impl (Shape.lineTo impl x y).2) ∧
    (∀ cx1 cy1 cx2 cy2 x y : ℚ,
      pathOnlyDirtied impl (Shape.cubicTo impl cx1 cy1 cx2 cy2 x y).2) ∧
    pathOnlyDirtied impl (Shape.close impl).2 ∧
    (∀ cx cy radiusW radiusH : ℚ,
      pathOnlyDirtied impl (Shape.appendCircle impl cx cy radiusW radiusH).2) ∧
    (∀ x y w h cornerRadius : ℚ,
      pathOnlyDirtied impl (Shape.appendRect impl x y w h cornerRadius).2) := by
  refine ⟨pathOnlyDirtied_with impl _, flagSet_or_Path_Path impl.flag, ?_,
    fun _ _ => pathOnlyDirtied_with impl _, fun _ _ => pathOnlyDirtied_with impl _,
    fun _ _ _ _ _ _ => pathOnlyDirtied_with impl _, pathOnlyDirtied_with impl _, ?_, ?_⟩
  · intro cmds cmdCnt pts ptsCnt
    have hn : ¬ (cmdCnt < 0 ∨ ptsCnt < 0) := by simp
    unfold Shape.appendPath
    rw [if_neg hn]
    exact pathOnlyDirtied_with impl _
  · intro cx cy radiusW radiusH
    obtain ⟨path, hp⟩ := appendCircle_eq_with impl cx cy radiusW radiusH
    rw [hp]
    exact pathOnlyDirtied_with impl path
  · intro x y w h cornerRadius
    obtain ⟨path, hp⟩ := appendRect_eq_with impl x y w h cornerRadius
    rw [hp]
    exact pathOnlyDirtied_with impl path

/-! ## The fill colour -/

/-- C10: for every shape state and every `r g b a`, the setter `fill(r,g,b,a)`
returns 0 and sets the Fill flag; the getter called next with four non-null
pointers returns 0 and yields exactly `(r,g,b,a)`; the setter leaves path,
scale, rotation and the Path and Transform flags unchanged; the getter, with
any pointers, returns 0 and leaves the record as it was. -/
theorem fill_set_then_get (impl : Impl) (r g b a : Nat) :
    (Shape.fill impl r g b a).1 = 0 ∧
    flagSet (Shape.fill impl r g b a).2.flag RenderUpdateFlag.Fill = true ∧
    (∀ r0 g0 b0 a0 : Nat,
      Shape.fillConst (Shape.fill impl r g b a).2 (some r0) (some g0) (some b0) (some a0) =
        (0, (some r, some g, some b, some a), (Shape.fill impl r g b a).2)) ∧
    (Shape.fill impl r g b a).2.path = impl.path ∧
    (Shape.fill impl r g b a).2.scale = impl.scale ∧
    (Shape.fill impl r g b a).2.rotate = impl.rotate ∧
    flagSet (Shape.fill impl r g b a).2.flag RenderUpdateFlag.Path =
      flagSet impl.flag RenderUpdateFlag.Path ∧
    flagSet (Shape.fill impl r g b a).2.flag RenderUpdateFlag.Transform =
      flagSet impl.flag RenderUpdateFlag.Transform ∧
    (∀ pr pg pb pa : Option Nat,
      (Shape.fillConst impl pr pg pb pa).1 = 0 ∧
      (Shape.fillConst impl pr pg pb pa).2.2 = impl) :=
  ⟨rfl, flagSet_or_Fill_Fill impl.flag, fun _ _ _ _ => rfl, rfl, rfl, rfl,
    flagSet_or_Fill_Path impl.flag, flagSet_or_Fill_Transform impl.flag,
    fun _ _ _ _ => ⟨rfl, rfl⟩⟩

/-! ## Helper lemmas: what the generators append -/

theorem appendCircle_path (impl : Impl) (cx cy radiusW radiusH : ℚ) :
    (Shape.appendCircle impl cx cy radiusW radiusH).2.path =
      { cmds := impl.path.cmds ++ circleCmds,
        pts := impl.path.pts ++ circlePts cx cy radiusW radiusH } := by
  simp [Shape.appendCircle, ShapePath.grow, ShapePath.moveTo, ShapePath.cubicTo,
    ShapePath.close, circleCmds, circlePts]

theorem appendRect_branches (impl : Impl) (x y w h cornerRadius r : ℚ)
    (hr : r = min cornerRadius (min w h / 2)) :
    (r = 0 ∧ (Shape.appendRect impl x y w h cornerRadius).2.path =
        { cmds := impl.path.cmds ++ rectCmds, pts := impl.path.pts ++ rectPts x y w h }) ∨
    (r ≠ 0 ∧ w = h ∧ r * 2 = w ∧ (Shape.appendRect impl x y w h cornerRadius).2.path =
        { cmds := impl.path.cmds ++ circleCmds,
          pts := impl.path.pts ++ circlePts (x + w * (1 / 2)) (y + h * (1 / 2)) r r }) ∨
    (r ≠ 0 ∧ ¬ (w = h ∧ r * 2 = w) ∧ (Shape.appendRect impl x y w h cornerRadius).2.path =
        { cmds := impl.path.cmds ++ roundRectCmds,
          pts := impl.path.pts ++ roundRectPts x y w h r }) := by
  have h1 := clamp_eq_min w h cornerRadius
  rw [← hr] at h1
  by_cases h0 : r = 0
  · left
    refine ⟨h0, ?_⟩
    simp only [Shape.appendRect, h1]
    rw [if_pos h0]
    simp [ShapePath.grow, ShapePath.moveTo, ShapePath.lineTo, ShapePath.close, rectCmds,
      rectPts]
  · by_cases hc : w = h ∧ r * 2 = w
    · right; left
      refine ⟨h0, hc.1, hc.2, ?_⟩
      simp only [Shape.appendRect, h1]
      rw [if_neg h0, if_pos hc]
      exact appendCircle_path impl _ _ r r
    · right; right
      refine ⟨h0, hc, ?_⟩
      simp only [Shape.appendRect, h1]
      rw [if_neg h0, if_neg hc]
      simp [ShapePath.grow, ShapePath.moveTo, ShapePath.lineTo, ShapePath.cubicTo,
        ShapePath.close, roundRectCmds, roundRectPts]

/-! ## Helper lemmas on the min/max fold of `bounds` -/

theorem foldl_min_x (rest : List Point) (p0 : Point) :
    (rest.foldl (fun m q => (⟨min m.x q.x, min m.y q.y⟩ : Point)) p0).x =
      rest.foldl (fun a q => min a q.x) p0.x := by
  induction rest generalizing p0 with
  | nil => rfl
  | cons q t ih => simp only [List.foldl_cons]; rw [ih]

theorem foldl_min_y (rest : List Point) (p0 : Point) :
    (rest.foldl (fun m q => (⟨min m.x q.x, min m.y q.y⟩ : Point)) p0).y =
      rest.foldl (fun a q => min a q.y) p0.y := by
  induction rest generalizing p0 with
  | nil => rfl
  | cons q t ih => simp only [List.foldl_cons]; rw [ih]

theorem foldl_max_x (rest : List Point) (p0 : Point) :
    (rest.foldl (fun m q => (⟨max m.x q.x, max m.y q.y⟩ : Point)) p0).x =
      rest.foldl (fun a q => max a q.x) p0.x := by
  induction rest generalizing p0 with
  | nil => rfl
  | cons q t ih => simp only [List.foldl_cons]; rw [ih]

theorem foldl_max_y (rest : List Point) (p0 : Point) :
    (rest.foldl (fun m q => (⟨max m.x q.x, max m.y q.y⟩ : Point)) p0).y =
      rest.foldl (fun a q => max a q.y) p0.y := by
  induction rest generalizing p0 with
  | nil => rfl
  | cons q t ih => simp only [List.foldl_cons]; rw [ih]

/-- A min fold equals `a` as soon as `a` is a lower bound of the start value and
of all folded values and is attained by one of them. -/
theorem foldl_min_eq (g : Point → ℚ) (l : List Point) (a0 a : ℚ)
    (h0 : a ≤ a0) (hall : ∀ q ∈ l, a ≤ g q) (hatt : a0 = a ∨ ∃ q ∈ l, g q = a) :
    l.foldl (fun m q => min m (g q)) a0 = a := by
  induction l generalizing a0 with
  | nil =>
    rcases hatt with h | ⟨q, hq, _⟩
    · exact h
    · cases hq
  | cons q t ih =>
    simp only [List.foldl_cons]
    apply ih
    · exact le_min h0 (hall q (List.mem_cons_self q t))
    · intro z hz
      exact hall z (List.mem_cons_of_mem q hz)
    · rcases hatt with h | ⟨z, hz, hgz⟩
      · left
        rw [h]
        exact min_eq_left (hall q (List.mem_cons_self q t))
      · rcases List.mem_cons.mp hz with hzq | hzt
        · left
          rw [← hzq, hgz]
          exact min_eq_right h0
        · exact Or.inr ⟨z, hzt, hgz⟩

/-- A max fold equals `b` as soon as `b` is an upper bound of the start value
and of all folded values and is attained by one of them. -/
theorem foldl_max_eq (g : Point → ℚ) (l : List Point) (b0 b : ℚ)
    (h0 : b0 ≤ b) (hall : ∀ q ∈ l, g q ≤ b) (hatt : b0 = b ∨ ∃ q ∈ l, g q = b) :
    l.foldl (fun m q => max m (g q)) b0 = b := by
  induction l generalizing b0 with
  | nil =>
    rcases hatt with h | ⟨q, hq, _⟩
    · exact h
    · cases hq
  | cons q t ih =>
    simp only [List.foldl_cons]
    apply ih
    · exact max_le h0 (hall q (List.mem_cons_self q t))
    · intro z hz
      exact hall z (List.mem_cons_of_mem q hz)
    · rcases hatt with h | ⟨z, hz, hgz⟩
      · left
        rw [h]
        exact max_eq_left (hall q (List.mem_cons_self q t))
      · rcases List.mem_cons.mp hz with hzq | hzt
        · left
          rw [← hzq, hgz]
          exact max_eq_right h0
        · exact Or.inr ⟨z, hzt, hgz⟩

/-- The box computed by `bounds` is `(x, y, w, h)` as soon as every point of the
path lies in `[x, x+w] × [y, y+h]` and each of the four sides is touched. -/
theorem bounds_of_box (p : ShapePath) (x y w h x0 y0 w0 h0 : ℚ)
    (hin : ∀ q ∈ p.pts, inBox x y w h q)
    (hl : ∃ q ∈ p.pts, q.x = x) (hr : ∃ q ∈ p.pts, q.x = x + w)
    (ht : ∃ q ∈ p.pts, q.y = y) (hb : ∃ q ∈ p.pts, q.y = y + h) :
    p.bounds x0 y0 w0 h0 = (true, (x, y, w, h)) := by
  obtain ⟨cmds, pts⟩ := p
  cases pts with
  | nil =>
    obtain ⟨q, hq, _⟩ := hl
    cases hq
  | cons p0 rest =>
    have hp0 := hin p0 (List.mem_cons_self p0 rest)
    have hrest : ∀ q ∈ rest, inBox x y w h q := fun q hq => hin q (List.mem_cons_of_mem p0 hq)
    have split : ∀ (g : Point → ℚ) (a : ℚ), (∃ q ∈ p0 :: rest, g q = a) →
        g p0 = a ∨ ∃ q ∈ rest, g q = a := by
      intro g a hex
      obtain ⟨q, hq, hg⟩ := hex
      rcases List.mem_cons.mp hq with hqp | hqr
      · left
        rw [← hqp]; exact hg
      · exact Or.inr ⟨q, hqr, hg⟩
    have hx : (rest.foldl (fun m q => (⟨min m.x q.x, min m.y q.y⟩ : Point)) p0).x = x := by
      rw [foldl_min_x]
      exact foldl_min_eq (fun q => q.x) rest p0.x x hp0.1 (fun q hq => (hrest q hq).1)
        (split (fun q => q.x) x hl)
    have hy : (rest.foldl (fun m q => (⟨min m.x q.x, min m.y q.y⟩ : Point)) p0).y = y := by
      rw [foldl_min_y]
      exact foldl_min_eq (fun q => q.y) rest p0.y y hp0.2.2.1 (fun q hq => (hrest q hq).2.2.1)
        (split (fun q => q.y) y ht)
    have hX : (rest.foldl (fun m q => (⟨max m.x q.x, max m.y q.y⟩ : Point)) p0).x = x + w := by
      rw [foldl_max_x]
      exact foldl_max_eq (fun q => q.x) rest p0.x (x + w) hp0.2.1 (fun q hq => (hrest q hq).2.1)
        (split (fun q => q.x) (x + w) hr)
    have hY : (rest.foldl (fun m q => (⟨max m.x q.x, max m.y q.y⟩ : Point)) p0).y = y + h := by
      rw [foldl_max_y]
      exact foldl_max_eq (fun q => q.y) rest p0.y (y + h) hp0.2.2.2
        (fun q hq => (hrest q hq).2.2.2) (split (fun q => q.y) (y + h) hb)
    simp only [ShapePath.bounds, hx, hy, hX, hY, add_sub_cancel_left]

/-- `Shape::bounds` in terms of the path's `bounds`. -/
theorem Shape_bounds_of_path (impl : Impl) (x0 y0 w0 h0 : ℚ) (box : ℚ × ℚ × ℚ × ℚ)
    (hb : impl.path.bounds x0 y0 w0 h0 = (true, box)) :
    Shape.bounds impl x0 y0 w0 h0 = (0, box, impl) := by
  simp [Shape.bounds, hb]

/-! ## Helper lemmas on the path invariant -/

theorem consumed_append (a b : List PathCommand) :
    consumed (a ++ b) = consumed a + consumed b := by
  simp [consumed]

theorem wellFormed_append_iff (p : ShapePath) (cs : List PathCommand) (ps : List Point)
    (hwf : p.wellFormed) :
    ShapePath.wellFormed { cmds := p.cmds ++ cs, pts := p.pts ++ ps } ↔
      consumed cs = ps.length := by
  unfold ShapePath.wellFormed at *
  simp only [consumed_append, List.length_append, hwf]
  omega

theorem appendPath_eq (impl : Impl) (cmds : List PathCommand) (cmdCnt : Nat)
    (pts : List Point) (ptsCnt : Nat) :
    Shape.appendPath impl cmds cmdCnt pts ptsCnt =
      (0, { impl with
              path := { cmds := impl.path.cmds ++ cmds.take cmdCnt,
                        pts := impl.path.pts ++ pts.take ptsCnt },
              flag := impl.flag ||| RenderUpdateFlag.Path }) := by
  have hn : ¬ (cmdCnt < 0 ∨ ptsCnt < 0) := by simp
  unfold Shape.appendPath
  rw [if_neg hn]
  rfl

/-! ## The bulk append -/

/-- C12 at a failing input: a caller passing the count -1 passes the `size_t`
value 2⁶⁴ - 1; the guard on negative counts does not fire, the call returns 0
instead of -1, and the path and the flag word are changed. -/
theorem appendPath_negative_count_not_rejected :
    size_t_ofInt (-1) = 18446744073709551615 ∧
    (Shape.appendPath emptyShape [PathCommand.MoveTo] (size_t_ofInt (-1)) [⟨0, 0⟩]
      (size_t_ofInt 1)).1 = 0 ∧
    (Shape.appendPath emptyShape [PathCommand.MoveTo] (size_t_ofInt (-1)) [⟨0, 0⟩]
      (size_t_ofInt 1)).2.path.cmds = [PathCommand.MoveTo] ∧
    flagSet (Shape.appendPath emptyShape [PathCommand.MoveTo] (size_t_ofInt (-1)) [⟨0, 0⟩]
      (size_t_ofInt 1)).2.flag RenderUpdateFlag.Path = true ∧
    flagSet emptyShape.flag RenderUpdateFlag.Path = false := by
  have h1 : size_t_ofInt (-1) = 18446744073709551615 := by
    unfold size_t_ofInt
    norm_num
    rfl
  rw [appendPath_eq, h1]
  refine ⟨rfl, rfl, ?_, ?_, ?_⟩
  · simp [emptyShape]
  · exact flagSet_or_Path_Path emptyShape.flag
  · simp [flagSet, emptyShape, RenderUpdateFlag.Path]

/-! ## The scene container -/

/-- C13: for every scene with child sequence `cs`, `push` of a non-null
drawable `p` returns `Success` and the children become `cs` followed by `p`;
`push` of a null drawable returns a failure result (`MemoryCorruption`, which
is not `Success`) and leaves the children exactly `cs`. -/
theorem push_appends_or_fails {Paint : Type} (cs : List Paint) (p : Paint) :
    Scene.push (some { paints := cs }) (some p) =
      (Result.Success, some { paints := cs ++ [p] }) ∧
    Scene.push (some ({ paints := cs } : SceneImpl Paint)) none =
      (Result.MemoryCorruption, some { paints := cs }) ∧
    Result.MemoryCorruption ≠ Result.Success :=
  ⟨rfl, rfl, by decide⟩

/-! ## Bounds after reset -/

/-- C16: for every shape (in particular every shape whose path has content),
`reset()` returns 0 and leaves the path with zero commands and zero points, and
`Shape::bounds` called next returns -1, a failure, and no box. -/
theorem reset_then_bounds_fails (impl : Impl) (x0 y0 w0 h0 : ℚ) :
    (Shape.reset impl).1 = 0 ∧
    (Shape.reset impl).2.path.cmds = [] ∧
    (Shape.reset impl).2.path.pts = [] ∧
    (Shape.pathCommands (Shape.reset impl).2).1 = 0 ∧
    (Shape.pathCoords (Shape.reset impl).2).1 = 0 ∧
    (Shape.bounds (Shape.reset impl).2 x0 y0 w0 h0).1 = -1 ∧
    (Shape.bounds (Shape.reset impl).2 x0 y0 w0 h0).1 ≠ 0 ∧
    (Shape.bounds (Shape.reset impl).2 x0 y0 w0 h0).2.1 = (x0, y0, w0, h0) := by
  simp [Shape.reset, ShapePath.reset, Shape.pathCommands, Shape.pathCoords, Shape.bounds,
    ShapePath.bounds]

/-! ## Helper lemmas: the boxes of the emitted points -/

theorem kappa_mul_bounds (r : ℚ) (hr : 0 ≤ r) : 0 ≤ r * PATH_KAPPA ∧ r * PATH_KAPPA ≤ r := by
  have hk0 : (0 : ℚ) ≤ PATH_KAPPA := by unfold PATH_KAPPA; norm_num
  have hk1 : PATH_KAPPA ≤ 1 := by unfold PATH_KAPPA; norm_num
  exact ⟨mul_nonneg hr hk0, by nlinarith⟩

theorem circlePts_inBox (cx cy r : ℚ) (hr : 0 ≤ r) :
    ∀ q ∈ circlePts cx cy r r, inBox (cx - r) (cy - r) (2 * r) (2 * r) q := by
  obtain ⟨hk0, hk1⟩ := kappa_mul_bounds r hr
  simp only [circlePts, List.forall_mem_cons, inBox]
  split_ands <;> first | linarith | (intro q hq; cases hq)

theorem circlePts_bounds (cmds : List PathCommand) (cx cy r x0 y0 w0 h0 : ℚ) (hr : 0 ≤ r) :
    ShapePath.bounds { cmds := cmds, pts := circlePts cx cy r r } x0 y0 w0 h0 =
      (true, (cx - r, cy - r, 2 * r, 2 * r)) := by
  apply bounds_of_box
  · exact circlePts_inBox cx cy r hr
  · exact ⟨⟨cx - r, cy⟩, by simp [circlePts], rfl⟩
  · exact ⟨⟨cx + r, cy⟩, by simp [circlePts], by simp only []; ring⟩
  · exact ⟨⟨cx, cy - r⟩, by simp [circlePts], rfl⟩
  · exact ⟨⟨cx, cy + r⟩, by simp [circlePts], by simp only []; ring⟩

theorem circlePts_inBox_of (x y w h cx cy r : ℚ) (hr : 0 ≤ r)
    (e1 : cx - r = x) (e2 : cy - r = y) (e3 : 2 * r = w) (e4 : 2 * r = h) :
    ∀ q ∈ circlePts cx cy r r, inBox x y w h q := by
  subst e1 e2 e3
  rw [← e4]
  exact circlePts_inBox cx cy r hr

theorem circlePts_bounds_of (cmds : List PathCommand) (x y w h cx cy r x0 y0 w0 h0 : ℚ)
    (hr : 0 ≤ r) (e1 : cx - r = x) (e2 : cy - r = y) (e3 : 2 * r = w) (e4 : 2 * r = h) :
    ShapePath.bounds { cmds := cmds, pts := circlePts cx cy r r } x0 y0 w0 h0 =
      (true, (x, y, w, h)) := by
  subst e1 e2 e3
  rw [← e4]
  exact circlePts_bounds cmds cx cy r x0 y0 w0 h0 hr

theorem rectPts_inBox (x y w h : ℚ) (hw : 0 ≤ w) (hh : 0 ≤ h) :
    ∀ q ∈ rectPts x y w h, inBox x y w h q := by
  simp only [rectPts, List.forall_mem_cons, inBox]
  split_ands <;> first | linarith | (intro q hq; cases hq)

theorem rectPts_bounds (cmds : List PathCommand) (x y w h x0 y0 w0 h0 : ℚ)
    (hw : 0 ≤ w) (hh : 0 ≤ h) :
    ShapePath.bounds { cmds := cmds, pts := rectPts x y w h } x0 y0 w0 h0 =
      (true, (x, y, w, h)) := by
  apply bounds_of_box
  · exact rectPts_inBox x y w h hw hh
  · exact ⟨⟨x, y⟩, by simp [rectPts], rfl⟩
  · exact ⟨⟨x + w, y⟩, by simp [rectPts], rfl⟩
  · exact ⟨⟨x, y⟩, by simp [rectPts], rfl⟩
  · exact ⟨⟨x, y + h⟩, by simp [rectPts], rfl⟩

theorem roundRectPts_inBox (x y w h r : ℚ) (hr : 0 ≤ r) (hrw : r ≤ w / 2) (hrh : r ≤ h / 2) :
    ∀ q ∈ roundRectPts x y w h r, inBox x y w h q := by
  simp only [roundRectPts, List.forall_mem_cons, inBox]
  split_ands <;> first | linarith | (intro q hq; cases hq)

theorem roundRectPts_bounds (cmds : List PathCommand) (x y w h r x0 y0 w0 h0 : ℚ)
    (hr : 0 ≤ r) (hrw : r ≤ w / 2) (hrh : r ≤ h / 2) :
    ShapePath.bounds { cmds := cmds, pts := roundRectPts x y w h r } x0 y0 w0 h0 =
      (true, (x, y, w, h)) := by
  apply bounds_of_box
  · exact roundRectPts_inBox x y w h r hr hrw hrh
  · exact ⟨⟨x, y + r⟩, by simp [roundRectPts], rfl⟩
  · exact ⟨⟨x + w, y + r⟩, by simp [roundRectPts], rfl⟩
  · exact ⟨⟨x + r, y⟩, by simp [roundRectPts], rfl⟩
  · exact ⟨⟨x + r, y + h⟩, by simp [roundRectPts], rfl⟩

/-! ## Bounds of the generated primitives -/

theorem wellFormed_append (p : ShapePath) (cs : List PathCommand) (ps : List Point)
    (hwf : p.wellFormed) (hc : consumed cs = ps.length) :
    ShapePath.wellFormed { cmds := p.cmds ++ cs, pts := p.pts ++ ps } :=
  (wellFormed_append_iff p cs ps hwf).mpr hc

theorem appendCircle_wellFormed (impl : Impl) (cx cy radiusW radiusH : ℚ)
    (hwf : impl.path.wellFormed) :
    (Shape.appendCircle impl cx cy radiusW radiusH).2.path.wellFormed := by
  rw [appendCircle_path]
  exact wellFormed_append impl.path _ _ hwf (by simp [consumed, circleCmds, circlePts, pointArity])

theorem appendRect_wellFormed (impl : Impl) (x y w h cornerRadius : ℚ)
    (hwf : impl.path.wellFormed) :
    (Shape.appendRect impl x y w h cornerRadius).2.path.wellFormed := by
  rcases appendRect_branches impl x y w h cornerRadius _ rfl with
    ⟨_, hp⟩ | ⟨_, _, _, hp⟩ | ⟨_, _, hp⟩
  · rw [hp]
    exact wellFormed_append impl.path _ _ hwf (by simp [consumed, rectCmds, rectPts, pointArity])
  · rw [hp]
    exact wellFormed_append impl.path _ _ hwf
      (by simp [consumed, circleCmds, circlePts, pointArity])
  · rw [hp]
    exact wellFormed_append impl.path _ _ hwf
      (by simp [consumed, roundRectCmds, roundRectPts, pointArity])

theorem builder_keeps_wellFormed (op : ShapeOp) (impl : Impl) (hb : op.isBuilder = true)
    (hwf : impl.path.wellFormed) : (op.apply impl).path.wellFormed := by
  cases op with
  | reset => simp [ShapeOp.apply, Shape.reset, ShapePath.reset, ShapePath.wellFormed, consumed]
  | moveTo x y =>
    exact wellFormed_append impl.path [PathCommand.MoveTo] [⟨x, y⟩] hwf
      (by simp [consumed, pointArity])
  | lineTo x y =>
    exact wellFormed_append impl.path [PathCommand.LineTo] [⟨x, y⟩] hwf
      (by simp [consumed, pointArity])
  | cubicTo cx1 cy1 cx2 cy2 x y =>
    exact wellFormed_append impl.path [PathCommand.CubicTo] [⟨cx1, cy1⟩, ⟨cx2, cy2⟩, ⟨x, y⟩] hwf
      (by simp [consumed, pointArity])
  | close =>
    have := wellFormed_append impl.path [PathCommand.Close] [] hwf
      (by simp [consumed, pointArity])
    simpa [ShapeOp.apply, Shape.close, ShapePath.close] using this
  | appendCircle cx cy radiusW radiusH => exact appendCircle_wellFormed impl _ _ _ _ hwf
  | appendRect x y w h cornerRadius => exact appendRect_wellFormed impl _ _ _ _ _ hwf
  | _ => simp [ShapeOp.isBuilder] at hb

theorem runOps_keeps_wellFormed (ops : List ShapeOp) (impl : Impl)
    (hb : ∀ op ∈ ops, op.isBuilder = true) (hwf : impl.path.wellFormed) :
    (runOps ops impl).path.wellFormed := by
  induction ops generalizing impl with
  | nil => exact hwf
  | cons op t ih =>
    simp only [runOps, List.foldl_cons]
    apply ih
    · intro o ho
      exact hb o (List.mem_cons_of_mem op ho)
    · exact builder_keeps_wellFormed op impl (hb op (List.mem_cons_self op t)) hwf

/-- C17: if the commands of the path consume exactly its points before the
call, the same holds after each of `reset`, `moveTo`, `lineTo`, `cubicTo`,
`close`, `appendCircle` and `appendRect` (every branch), for every argument; the
empty path satisfies the invariant, hence so does every path reached from a
well-formed shape, in particular from an empty shape, by these operations. -/
theorem builders_keep_path_invariant (impl : Impl) (hwf : impl.path.wellFormed) :
    (Shape.reset impl).2.path.wellFormed ∧
    (∀ x y : ℚ, (Shape.moveTo impl x y).2.path.wellFormed) ∧
    (∀ x y : ℚ, (Shape.lineTo impl x y).2.path.wellFormed) ∧
    (∀ cx1 cy1 cx2 cy2 x y : ℚ, (Shape.cubicTo impl cx1 cy1 cx2 cy2 x y).2.path.wellFormed) ∧
    (Shape.close impl).2.path.wellFormed ∧
    (∀ cx cy radiusW radiusH : ℚ,
      (Shape.appendCircle impl cx cy radiusW radiusH).2.path.wellFormed) ∧
    (∀ x y w h cornerRadius : ℚ,
      (Shape.appendRect impl x y w h cornerRadius).2.path.wellFormed) ∧
    emptyShape.path.wellFormed ∧
    (∀ ops : List ShapeOp, (∀ op ∈ ops, op.isBuilder = true) →
      (runOps ops impl).path.wellFormed) ∧
    (∀ ops : List ShapeOp, (∀ op ∈ ops, op.isBuilder = true) →
      (runOps ops emptyShape).path.wellFormed) := by
  have hempty : emptyShape.path.wellFormed := by
    simp [ShapePath.wellFormed, emptyShape, consumed]
  exact ⟨builder_keeps_wellFormed ShapeOp.reset impl rfl hwf,
    fun x y => builder_keeps_wellFormed (ShapeOp.moveTo x y) impl rfl hwf,
    fun x y => builder_keeps_wellFormed (ShapeOp.lineTo x y) impl rfl hwf,
    fun cx1 cy1 cx2 cy2 x y =>
      builder_keeps_wellFormed (ShapeOp.cubicTo cx1 cy1 cx2 cy2 x y) impl rfl hwf,
    builder_keeps_wellFormed ShapeOp.close impl rfl hwf,
    fun cx cy radiusW radiusH => appendCircle_wellFormed impl cx cy radiusW radiusH hwf,
    fun x y w h cornerRadius => appendRect_wellFormed impl x y w h cornerRadius hwf,
    hempty,
    fun ops hb => runOps_keeps_wellFormed ops impl hb hwf,
    fun ops hb => runOps_keeps_wellFormed ops emptyShape hb hempty⟩

/-- The witness of C17: a move, a rounded rectangle and a close on the empty
shape leave a path whose commands consume exactly its points. -/
theorem builders_keep_path_invariant_witness :
    emptyShape.path.wellFormed ∧
    (runOps [ShapeOp.moveTo 0 0, ShapeOp.appendRect 1 2 10 6 2, ShapeOp.close]
      emptyShape).path.wellFormed := by
  have hempty : emptyShape.path.wellFormed := by
    simp [ShapePath.wellFormed, emptyShape, consumed]
  exact ⟨hempty, (builders_keep_path_invariant emptyShape hempty).2.2.2.2.2.2.2.2.1
    [ShapeOp.moveTo 0 0, ShapeOp.appendRect 1 2 10 6 2, ShapeOp.close]
    (by simp [ShapeOp.isBuilder])⟩

/-! ## Dirty flags are never cleared -/

theorem flagSet_or_mono (f c b : Nat) (hset : flagSet f b = true) :
    flagSet (f ||| c) b = true := by
  unfold flagSet at *
  rw [beq_iff_eq] at *
  apply Nat.eq_of_testBit_eq
  intro i
  have hi := congrArg (fun n => n.testBit i) hset
  simp only [Nat.testBit_and, Nat.testBit_or] at hi ⊢
  revert hi
  cases f.testBit i <;> cases c.testBit i <;> cases b.testBit i <;> simp

theorem apply_flag (op : ShapeOp) (impl : Impl) :
    ∃ c : Nat, (op.apply impl).flag = impl.flag ||| c := by
  cases op with
  | reset => exact ⟨RenderUpdateFlag.Path, rfl⟩
  | appendPath cmds cmdCnt pts ptsCnt =>
    refine ⟨RenderUpdateFlag.Path, ?_⟩
    simp only [ShapeOp.apply]
    rw [appendPath_eq]
  | moveTo x y => exact ⟨RenderUpdateFlag.Path, rfl⟩
  | lineTo x y => exact ⟨RenderUpdateFlag.Path, rfl⟩
  | cubicTo cx1 cy1 cx2 cy2 x y => exact ⟨RenderUpdateFlag.Path, rfl⟩
  | close => exact ⟨RenderUpdateFlag.Path, rfl⟩
  | appendCircle cx cy radiusW radiusH => exact ⟨RenderUpdateFlag.Path, rfl⟩
  | appendRect x y w h cornerRadius =>
    obtain ⟨path, hp⟩ := appendRect_eq_with impl x y w h cornerRadius
    refine ⟨RenderUpdateFlag.Path, ?_⟩
    simp only [ShapeOp.apply]
    rw [hp]
  | fill r g b a => exact ⟨RenderUpdateFlag.Fill, rfl⟩
  | fillConst r g b a => exact ⟨0, (Nat.or_zero _).symm⟩
  | scale factor =>
    simp only [ShapeOp.apply, Shape.scale]
    split_ifs
    · exact ⟨0, (Nat.or_zero _).symm⟩
    · exact ⟨RenderUpdateFlag.Transform, rfl⟩
  | rotate degree =>
    simp only [ShapeOp.apply, Shape.rotate]
    split_ifs
    · exact ⟨0, (Nat.or_zero _).symm⟩
    · exact ⟨RenderUpdateFlag.Transform, rfl⟩
  | bounds x y w h =>
    simp only [ShapeOp.apply, Shape.bounds]
    split_ifs <;> exact ⟨0, (Nat.or_zero _).symm⟩
  | scaleConst => exact ⟨0, (Nat.or_zero _).symm⟩
  | rotateConst => exact ⟨0, (Nat.or_zero _).symm⟩
  | pathCommands => exact ⟨0, (Nat.or_zero _).symm⟩
  | pathCoords => exact ⟨0, (Nat.or_zero _).symm⟩

theorem apply_keeps_flag (op : ShapeOp) (impl : Impl) (bit : Nat)
    (hset : flagSet impl.flag bit = true) : flagSet (op.apply impl).flag bit = true := by
  obtain ⟨c, hc⟩ := apply_flag op impl
  rw [hc]
  exact flagSet_or_mono impl.flag c bit hset

theorem runOps_keeps_flag (ops : List ShapeOp) (impl : Impl) (bit : Nat)
    (hset : flagSet impl.flag bit = true) : flagSet (runOps ops impl).flag bit = true := by
  induction ops generalizing impl with
  | nil => exact hset
  | cons op t ih =>
    simp only [runOps, List.foldl_cons]
    exact ih (op.apply impl) (apply_keeps_flag op impl bit hset)

/-- C18: the core never clears a dirty flag.  For every public operation of
`Shape` (`reset`, `appendPath`, `moveTo`, `lineTo`, `cubicTo`, `close`,
`appendCircle`, `appendRect`, both `fill` overloads, `scale`, `rotate`, `bounds`
and the accessors), any argument and any starting state, a flag (Path, Fill,
Transform, or any other bit mask) that is set before the call is still set after
it, and so it is after any sequence of such operations: no sequence takes a
dirty shape back to Clean. -/
theorem flags_never_cleared (impl : Impl) (bit : Nat)
    (hset : flagSet impl.flag bit = true) :
    (∀ op : ShapeOp, flagSet (op.apply impl).flag bit = true) ∧
    (∀ ops : List ShapeOp, flagSet (runOps ops impl).flag bit = true) :=
  ⟨fun op => apply_keeps_flag op impl bit hset,
    fun ops => runOps_keeps_flag ops impl bit hset⟩

/-- The witness of C18: a shape whose Fill flag is set keeps it through a
reset, a rejected scale, a rotation and a bounds query. -/
theorem flags_never_cleared_witness :
    flagSet (Shape.fill emptyShape 1 2 3 4).2.flag RenderUpdateFlag.Fill = true ∧
    flagSet (runOps [ShapeOp.reset, ShapeOp.scale 0, ShapeOp.rotate 90, ShapeOp.bounds 0 0 0 0]
      (Shape.fill emptyShape 1 2 3 4).2).flag RenderUpdateFlag.Fill = true :=
  ⟨flagSet_or_Fill_Fill emptyShape.flag,
    (flags_never_cleared (Shape.fill emptyShape 1 2 3 4).2 RenderUpdateFlag.Fill
      (flagSet_or_Fill_Fill emptyShape.flag)).2
      [ShapeOp.reset, ShapeOp.scale 0, ShapeOp.rotate 90, ShapeOp.bounds 0 0 0 0]⟩

/-! ## The builder operations are append-only -/

theorem appendedCount_append (p : ShapePath) (cs : List PathCommand) (ps : List Point) :
    appendedCount p { cmds := p.cmds ++ cs, pts := p.pts ++ ps } cs.length ps.length :=
  ⟨⟨cs, rfl⟩, ⟨ps, rfl⟩, List.length_append _ _, List.length_append _ _⟩

/-- C20: the builder operations are append-only.  For every shape state and
every argument, after `moveTo`, `lineTo`, `cubicTo`, `close`, `appendPath`,
`appendCircle` or `appendRect` the previous command stream is a prefix of the new
one and the previous point stream is a prefix of the new one; the numbers of
added commands/points are 1/1 for `moveTo` and `lineTo`, 1/3 for `cubicTo`, 1/0
for `close`, 6/13 for `appendCircle`, and 5/4, 6/13 or 10/17 for `appendRect`. -/
theorem builders_append_only (impl : Impl) :
    (∀ x y : ℚ, appendedCount impl.path (Shape.moveTo impl x y).2.path 1 1) ∧
    (∀ x y : ℚ, appendedCount impl.path (Shape.lineTo impl x y).2.path 1 1) ∧
    (∀ cx1 cy1 cx2 cy2 x y : ℚ,
      appendedCount impl.path (Shape.cubicTo impl cx1 cy1 cx2 cy2 x y).2.path 1 3) ∧
    appendedCount impl.path (Shape.close impl).2.path 1 0 ∧
    (∀ (cmds : List PathCommand) (cmdCnt : Nat) (pts : List Point) (ptsCnt : Nat),
      impl.path.cmds <+: (Shape.appendPath impl cmds cmdCnt pts ptsCnt).2.path.cmds ∧
      impl.path.pts <+: (Shape.appendPath impl cmds cmdCnt pts ptsCnt).2.path.pts) ∧
    (∀ cx cy radiusW radiusH : ℚ,
      appendedCount impl.path (Shape.appendCircle impl cx cy radiusW radiusH).2.path 6 13) ∧
    (∀ x y w h cornerRadius : ℚ,
      appendedCount impl.path (Shape.appendRect impl x y w h cornerRadius).2.path 5 4 ∨
      appendedCount impl.path (Shape.appendRect impl x y w h cornerRadius).2.path 6 13 ∨
      appendedCount impl.path (Shape.appendRect impl x y w h cornerRadius).2.path 10 17) := by
  refine ⟨fun x y => appendedCount_append impl.path [PathCommand.MoveTo] [⟨x, y⟩],
    fun x y => appendedCount_append impl.path [PathCommand.LineTo] [⟨x, y⟩],
    fun cx1 cy1 cx2 cy2 x y =>
      appendedCount_append impl.path [PathCommand.CubicTo] [⟨cx1, cy1⟩, ⟨cx2, cy2⟩, ⟨x, y⟩],
    ?_, ?_, ?_, ?_⟩
  · have := appendedCount_append impl.path [PathCommand.Close] []
    simpa [Shape.close, ShapePath.close] using this
  · intro cmds cmdCnt pts ptsCnt
    rw [appendPath_eq]
    exact ⟨⟨_, rfl⟩, ⟨_, rfl⟩⟩
  · intro cx cy radiusW radiusH
    rw [appendCircle_path]
    exact appendedCount_append impl.path circleCmds (circlePts cx cy radiusW radiusH)
  · intro x y w h cornerRadius
    rcases appendRect_branches impl x y w h cornerRadius _ rfl with
      ⟨_, hp⟩ | ⟨_, _, _, hp⟩ | ⟨_, _, hp⟩
    · left
      rw [hp]
      exact appendedCount_append impl.path rectCmds (rectPts x y w h)
    · right; left
      rw [hp]
      exact appendedCount_append impl.path circleCmds (circlePts _ _ _ _)
    · right; right
      rw [hp]
      exact appendedCount_append impl.path roundRectCmds (roundRectPts x y w h _)

/-! ## Lemmas on rounding -/

theorem rne_intCast (n : Int) : rne (n : ℚ) = n := by
  simp [rne]

theorem floor_le_rne (t : ℚ) : ⌊t⌋ ≤ rne t := by
  unfold rne
  split_ifs <;> omega

theorem rne_le_floor_add_one (t : ℚ) : rne t ≤ ⌊t⌋ + 1 := by
  unfold rne
  split_ifs <;> omega

theorem int_le_rne (t : ℚ) (n : Int) (h : (n : ℚ) ≤ t) : n ≤ rne t :=
  le_trans (Int.le_floor.mpr h) (floor_le_rne t)

theorem rne_le_int (t : ℚ) (n : Int) (h : t ≤ (n : ℚ)) : rne t ≤ n := by
  rcases lt_or_eq_of_le h with hlt | heq
  · have hf : ⌊t⌋ < n := Int.floor_lt.mpr hlt
    have := rne_le_floor_add_one t
    omega
  · rw [heq, rne_intCast]

theorem rne_mono (a b : ℚ) (h : a ≤ b) : rne a ≤ rne b := by
  have hfl : ⌊a⌋ ≤ ⌊b⌋ := Int.floor_mono h
  rcases lt_or_eq_of_le hfl with hlt | heq
  · have h1 := rne_le_floor_add_one a
    have h2 := floor_le_rne b
    omega
  · unfold rne
    rw [heq]
    have hd : a - (⌊b⌋ : ℚ) ≤ b - (⌊b⌋ : ℚ) := by linarith
    split_ifs <;> first | omega | linarith

/-- Evaluation of `rne` away from a tie. -/
theorem rne_eq_of_lt (t : ℚ) (n : Int) (h1 : (n : ℚ) - 1 / 2 < t) (h2 : t < (n : ℚ) + 1 / 2) :
    rne t = n := by
  rcases lt_or_le t (n : ℚ) with hlt | hle
  · have hf : ⌊t⌋ = n - 1 := by
      rw [Int.floor_eq_iff]
      push_cast
      constructor <;> linarith
    unfold rne
    rw [hf]
    push_cast
    have hnot : ¬ (t - ((n : ℚ) - 1) < 1 / 2) := by linarith
    have hyes : 1 / 2 < t - ((n : ℚ) - 1) := by linarith
    rw [if_neg hnot, if_pos hyes]
    omega
  · have hf : ⌊t⌋ = n := by
      rw [Int.floor_eq_iff]
      constructor <;> linarith
    unfold rne
    rw [hf]
    have hyes : t - (n : ℚ) < 1 / 2 := by linarith
    rw [if_pos hyes]

/-- Evaluation of `rne` at a tie: the even neighbour is taken. -/
theorem rne_tie (n : Int) :
    rne ((n : ℚ) + 1 / 2) = if n % 2 = 0 then n else n + 1 := by
  have hf : ⌊(n : ℚ) + 1 / 2⌋ = n := by
    rw [Int.floor_eq_iff]
    constructor <;> linarith
  unfold rne
  rw [hf]
  have h1 : ¬ ((n : ℚ) + 1 / 2 - (n : ℚ) < 1 / 2) := by linarith
  have h2 : ¬ (1 / 2 < (n : ℚ) + 1 / 2 - (n : ℚ)) := by linarith
  rw [if_neg h1, if_neg h2]

theorem two_zpow_pos (e : Int) : (0 : ℚ) < 2 ^ e :=
  zpow_pos (by norm_num) e

theorem roundPos_nonneg (prec : Nat) (qmin : Int) (q : ℚ) (hq : 0 ≤ q) :
    0 ≤ roundPos prec qmin q := by
  unfold roundPos
  have hp := two_zpow_pos (ulpExp prec qmin q)
  have h0 : (0 : Int) ≤ rne (q / 2 ^ ulpExp prec qmin q) :=
    int_le_rne _ 0 (by simpa using div_nonneg hq hp.le)
  exact mul_nonneg (by exact_mod_cast h0) hp.le

theorem roundPos_zero (prec : Nat) (qmin : Int) : roundPos prec qmin 0 = 0 := by
  simp [roundPos, rne]

theorem ulpExp_mono (prec : Nat) (qmin : Int) (a b : ℚ) (ha : 0 < a) (h : a ≤ b) :
    ulpExp prec qmin a ≤ ulpExp prec qmin b := by
  unfold ulpExp
  have := @Int.log_mono_right ℚ _ _ 2 a b ha h
  exact max_le_max (by omega) le_rfl

theorem zpow_two_eq_intCast (k : Int) (hk : 0 ≤ k) :
    ((2 : ℚ) ^ k) = (((2 : Int) ^ k.toNat : Int) : ℚ) := by
  obtain ⟨n, rfl⟩ := Int.eq_ofNat_of_zero_le hk
  simp

theorem roundPos_mono (prec : Nat) (hprec : 1 ≤ prec) (qmin : Int) (a b : ℚ) (ha : 0 ≤ a)
    (h : a ≤ b) : roundPos prec qmin a ≤ roundPos prec qmin b := by
  rcases lt_or_eq_of_le ha with hapos | ha0
  · have hbpos : 0 < b := lt_of_lt_of_le hapos h
    have he := ulpExp_mono prec qmin a b hapos h
    rcases lt_or_eq_of_le he with helt | heeq
    · -- different binades: the power of two between them separates the results
      have hqa : qmin ≤ ulpExp prec qmin a := le_max_right _ _
      have hloga : Int.log 2 a + 1 - prec ≤ ulpExp prec qmin a := le_max_left _ _
      have heb : ulpExp prec qmin b = Int.log 2 b + 1 - prec := by
        unfold ulpExp at helt hqa ⊢
        rcases max_cases (Int.log 2 b + 1 - (prec : Int)) qmin with ⟨h1, _⟩ | ⟨h1, _⟩
        · exact h1
        · rw [h1] at helt
          omega
      set ea := ulpExp prec qmin a with hea
      set eb := ulpExp prec qmin b with heb'
      set K := Int.log 2 b with hK
      have hKb : (2 : ℚ) ^ K ≤ b := by
        have := @Int.zpow_log_le_self ℚ _ _ 2 b (by norm_num) hbpos
        simpa using this
      have haK : a < (2 : ℚ) ^ K := by
        have h1 : a < (2 : ℚ) ^ (Int.log 2 a + 1) := by
          have := @Int.lt_zpow_succ_log_self ℚ _ _ 2 (by norm_num) a
          simpa using this
        have h2 : Int.log 2 a + 1 ≤ K := by omega
        exact lt_of_lt_of_le h1 (zpow_le_zpow_right₀ (by norm_num) h2)
      have hpa := two_zpow_pos ea
      have hpb := two_zpow_pos eb
      -- lower bound for b
      have hlow : (2 : ℚ) ^ K ≤ roundPos prec qmin b := by
        have hKe : 0 ≤ K - eb := by omega
        have hcast := zpow_two_eq_intCast (K - eb) hKe
        have hle : (((2 : Int) ^ (K - eb).toNat : Int) : ℚ) ≤ b / 2 ^ eb := by
          rw [← hcast, le_div_iff₀ hpb, ← zpow_add₀ (by norm_num : (2 : ℚ) ≠ 0)]
          simpa using hKb
        have hr := int_le_rne _ _ hle
        have hr' : (((2 : Int) ^ (K - eb).toNat : Int) : ℚ) ≤ (rne (b / 2 ^ eb) : ℚ) := by
          exact_mod_cast hr
        calc (2 : ℚ) ^ K = 2 ^ (K - eb) * 2 ^ eb := by
              rw [← zpow_add₀ (by norm_num : (2 : ℚ) ≠ 0)]; simp
          _ ≤ (rne (b / 2 ^ eb) : ℚ) * 2 ^ eb := by
              rw [hcast]
              exact mul_le_mul_of_nonneg_right hr' hpb.le
      have hhigh : roundPos prec qmin a ≤ (2 : ℚ) ^ K := by
        have hKe : 0 ≤ K - ea := by omega
        have hcast := zpow_two_eq_intCast (K - ea) hKe
        have hle : a / 2 ^ ea ≤ (((2 : Int) ^ (K - ea).toNat : Int) : ℚ) := by
          rw [← hcast, div_le_iff₀ hpa, ← zpow_add₀ (by norm_num : (2 : ℚ) ≠ 0)]
          simpa using haK.le
        have hr := rne_le_int _ _ hle
        have hr' : (rne (a / 2 ^ ea) : ℚ) ≤ (((2 : Int) ^ (K - ea).toNat : Int) : ℚ) := by
          exact_mod_cast hr
        calc (rne (a / 2 ^ ea) : ℚ) * 2 ^ ea ≤ 2 ^ (K - ea) * 2 ^ ea := by
              rw [hcast]
              exact mul_le_mul_of_nonneg_right hr' hpa.le
          _ = (2 : ℚ) ^ K := by
              rw [← zpow_add₀ (by norm_num : (2 : ℚ) ≠ 0)]; simp
      exact le_trans hhigh hlow
    · unfold roundPos
      rw [heeq]
      have hp := two_zpow_pos (ulpExp prec qmin b)
      have hdiv : a / 2 ^ ulpExp prec qmin b ≤ b / 2 ^ ulpExp prec qmin b :=
        div_le_div_of_nonneg_right h hp.le
      have hr := rne_mono _ _ hdiv
      exact mul_le_mul_of_nonneg_right (by exact_mod_cast hr) hp.le
  · rw [← ha0, roundPos_zero]
    exact roundPos_nonneg prec qmin b (by linarith)

theorem roundQ_mono (prec : Nat) (hprec : 1 ≤ prec) (qmin : Int) (a b : ℚ) (h : a ≤ b) :
    roundQ prec qmin a ≤ roundQ prec qmin b := by
  unfold roundQ
  by_cases ha : a < 0
  · by_cases hb : b < 0
    · rw [if_pos ha, if_pos hb]
      have := roundPos_mono prec hprec qmin (-b) (-a) (by linarith) (by linarith)
      linarith
    · rw [if_pos ha, if_neg hb]
      have h1 := roundPos_nonneg prec qmin (-a) (by linarith)
      have h2 := roundPos_nonneg prec qmin b (by linarith)
      linarith
  · have hb : ¬ b < 0 := by linarith
    rw [if_neg ha, if_neg hb]
    exact roundPos_mono prec hprec qmin a b (by linarith) h

theorem roundQ_neg (prec : Nat) (qmin : Int) (q : ℚ) :
    roundQ prec qmin (-q) = -roundQ prec qmin q := by
  unfold roundQ
  rcases lt_trichotomy q 0 with h | h | h
  · have h1 : ¬ (-q < 0) := by linarith
    rw [if_neg h1, if_pos h, neg_neg]
  · subst h
    simp [roundPos_zero]
  · have h1 : -q < 0 := by linarith
    have h2 : ¬ q < 0 := by linarith
    rw [if_pos h1, if_neg h2, neg_neg]

theorem log_eq_of_bounds (q : ℚ) (k : Int) (h1 : (2 : ℚ) ^ k ≤ q) (h2 : q < (2 : ℚ) ^ (k + 1)) :
    Int.log 2 q = k := by
  have hq : 0 < q := lt_of_lt_of_le (two_zpow_pos k) h1
  have ha : k ≤ Int.log 2 q := by
    rw [← @Int.zpow_le_iff_le_log ℚ _ _ 2 (by norm_num) k q hq]
    simpa using h1
  have hb : Int.log 2 q < k + 1 := by
    rw [← @Int.lt_zpow_iff_log_lt ℚ _ _ 2 (by norm_num) (k + 1) q hq]
    simpa using h2
  omega

/-- Evaluation of `roundPos` from the binade of `q` and the rounded mantissa. -/
theorem roundPos_eval (prec : Nat) (qmin : Int) (q : ℚ) (k e n : Int)
    (h1 : (2 : ℚ) ^ k ≤ q) (h2 : q < (2 : ℚ) ^ (k + 1))
    (he : e = max (k + 1 - prec) qmin) (hn : rne (q / 2 ^ e) = n) :
    roundPos prec qmin q = n * 2 ^ e := by
  have hu : ulpExp prec qmin q = e := by
    unfold ulpExp
    rw [log_eq_of_bounds q k h1 h2, he]
  unfold roundPos
  rw [hu, hn]

/-- Values on the grid of the format are left alone. -/
theorem roundPos_of_grid (prec : Nat) (qmin : Int) (m : Nat) (e : Int)
    (hm : m < 2 ^ prec) (he : qmin ≤ e) :
    roundPos prec qmin (m * 2 ^ e) = m * 2 ^ e := by
  rcases Nat.eq_zero_or_pos m with h0 | hpos
  · subst h0
    simp [roundPos_zero]
  · have hpe := two_zpow_pos e
    have hq : (0 : ℚ) < m * 2 ^ e := mul_pos (by exact_mod_cast hpos) hpe
    set u := ulpExp prec qmin ((m : ℚ) * 2 ^ e) with hu
    have hlt : (m : ℚ) * 2 ^ e < (2 : ℚ) ^ ((prec : Int) + e) := by
      rw [zpow_add₀ (by norm_num : (2 : ℚ) ≠ 0)]
      apply mul_lt_mul_of_pos_right _ hpe
      rw [zpow_natCast]
      exact_mod_cast hm
    have hlog : Int.log 2 ((m : ℚ) * 2 ^ e) < (prec : Int) + e := by
      rw [← @Int.lt_zpow_iff_log_lt ℚ _ _ 2 (by norm_num) ((prec : Int) + e) _ hq]
      simpa using hlt
    have hue : u ≤ e := by
      rw [hu]
      unfold ulpExp
      exact max_le (by omega) he
    have hcast := zpow_two_eq_intCast (e - u) (by omega)
    have hdiv : (m : ℚ) * 2 ^ e / 2 ^ u = (((m : Int) * (2 : Int) ^ (e - u).toNat : Int) : ℚ) := by
      rw [mul_div_assoc, ← zpow_sub₀ (by norm_num : (2 : ℚ) ≠ 0), hcast]
      push_cast
      ring
    unfold roundPos
    rw [← hu, hdiv, rne_intCast]
    push_cast
    rw [← zpow_natCast, Int.toNat_of_nonneg (by omega), mul_assoc,
      ← zpow_add₀ (by norm_num : (2 : ℚ) ≠ 0)]
    simp

theorem roundQ_of_grid (prec : Nat) (qmin : Int) (m : Int) (e : Int)
    (hm : |m| < 2 ^ prec) (he : qmin ≤ e) :
    roundQ prec qmin (m * 2 ^ e) = m * 2 ^ e := by
  have hpe := two_zpow_pos e
  have hnat : (m.natAbs : Int) = |m| := Int.natCast_natAbs m
  have hmn : m.natAbs < 2 ^ prec := by
    have : (m.natAbs : Int) < 2 ^ prec := by rw [hnat]; exact hm
    exact_mod_cast this
  have hg := roundPos_of_grid prec qmin m.natAbs e hmn he
  unfold roundQ
  by_cases hneg : (m : ℚ) * 2 ^ e < 0
  · have hm0 : m < 0 := by
      by_contra hc
      have : (0 : ℚ) ≤ m := by exact_mod_cast (not_lt.mp hc)
      have := mul_nonneg this hpe.le
      linarith
    have habs : ((m.natAbs : Nat) : ℚ) = -(m : ℚ) := by
      have hmq : (m : ℚ) < 0 := by exact_mod_cast hm0
      rw [Nat.cast_natAbs, Int.cast_abs, abs_of_neg hmq]
    rw [if_pos hneg]
    rw [habs] at hg
    rw [show -((m : ℚ) * 2 ^ e) = -(m : ℚ) * 2 ^ e by ring, hg]
    ring
  · have hm0 : 0 ≤ m := by
      by_contra hc
      have : (m : ℚ) < 0 := by exact_mod_cast (not_le.mp hc)
      have := mul_neg_of_neg_of_pos this hpe
      exact hneg this
    have habs : ((m.natAbs : Nat) : ℚ) = (m : ℚ) := by
      have hmq : (0 : ℚ) ≤ m := by exact_mod_cast hm0
      rw [Nat.cast_natAbs, Int.cast_abs, abs_of_nonneg hmq]
    rw [if_neg hneg]
    rw [habs] at hg
    exact hg

/-- Exactly representable binary32 values round to themselves. -/
theorem round32_of_grid (q : ℚ) (m : Int) (e : Int) (hq : q = m * 2 ^ e)
    (hm : |m| < 2 ^ 24) (he : -149 ≤ e) (hlo : -(2 ^ 128) < q) (hhi : q < 2 ^ 128) :
    round32 q = FVal.fin q := by
  have hfin : |q| < 2 ^ 128 := abs_lt.mpr ⟨hlo, hhi⟩
  have hr : roundQ 24 (-149) q = q := by
    rw [hq]
    exact roundQ_of_grid 24 (-149) m e hm he
  unfold round32 roundF
  rw [hr, if_neg]
  have : ((127 : Int) + 1) = ((128 : Nat) : Int) := by norm_num
  rw [this, zpow_natCast]
  exact not_le.mpr hfin

/-- Exactly representable binary64 values round to themselves. -/
theorem round64_of_grid (q : ℚ) (m : Int) (e : Int) (hq : q = m * 2 ^ e)
    (hm : |m| < 2 ^ 53) (he : -1074 ≤ e) (hlo : -(2 ^ 1024) < q) (hhi : q < 2 ^ 1024) :
    round64 q = FVal.fin q := by
  have hfin : |q| < 2 ^ 1024 := abs_lt.mpr ⟨hlo, hhi⟩
  have hr : roundQ 53 (-1074) q = q := by
    rw [hq]
    exact roundQ_of_grid 53 (-1074) m e hm he
  unfold round64 roundF
  rw [hr, if_neg]
  have : ((1023 : Int) + 1) = ((1024 : Nat) : Int) := by norm_num
  rw [this, zpow_natCast]
  exact not_le.mpr hfin

/-- Evaluation of `round32` at a positive rational from its binade and rounded
mantissa. -/
theorem round32_eval_pos (q : ℚ) (k e n : Int) (r : ℚ)
    (h1 : (2 : ℚ) ^ k ≤ q) (h2 : q < (2 : ℚ) ^ (k + 1))
    (he : e = max (k + 1 - 24) (-149)) (hn : rne (q / 2 ^ e) = n)
    (hr : r = n * 2 ^ e) (hfin : r < 2 ^ 128) :
    round32 q = FVal.fin r := by
  have hq0 : 0 ≤ q := le_trans (two_zpow_pos k).le h1
  have hq : ¬ q < 0 := not_lt.mpr hq0
  have hpos : roundPos 24 (-149) q = r := by
    rw [hr]
    exact roundPos_eval 24 (-149) q k e n h1 h2 (by simpa using he) hn
  have hp : roundQ 24 (-149) q = r := by
    unfold roundQ
    rw [if_neg hq, hpos]
  have hr0 : 0 ≤ r := by
    rw [← hpos]
    exact roundPos_nonneg 24 (-149) q hq0
  unfold round32 roundF
  rw [hp, if_neg]
  have : ((127 : Int) + 1) = ((128 : Nat) : Int) := by norm_num
  rw [this, zpow_natCast, abs_of_nonneg hr0]
  exact not_le.mpr hfin


/-! ## Lemmas on `float` values -/

theorem roundF_fin (prec : Nat) (qmin emax : Int) (q v : ℚ)
    (h : roundF prec qmin emax q = FVal.fin v) :
    v = roundQ prec qmin q ∧ |roundQ prec qmin q| < (2 : ℚ) ^ (emax + 1) := by
  unfold roundF at h
  split_ifs at h with hov
  · exact ⟨(FVal.fin.inj h).symm, not_le.mp hov⟩

theorem roundF_of_lt (prec : Nat) (qmin emax : Int) (q : ℚ)
    (h : |roundQ prec qmin q| < (2 : ℚ) ^ (emax + 1)) :
    roundF prec qmin emax q = FVal.fin (roundQ prec qmin q) := by
  unfold roundF
  rw [if_neg (not_le.mpr h)]

/-- Rounding to `float` is monotone on the values it keeps finite. -/
theorem round32_fin_mono (a b va vb : ℚ) (ha : round32 a = FVal.fin va)
    (hb : round32 b = FVal.fin vb) (h : a ≤ b) : va ≤ vb := by
  have h1 := (roundF_fin 24 (-149) 127 a va ha).1
  have h2 := (roundF_fin 24 (-149) 127 b vb hb).1
  rw [h1, h2]
  exact roundQ_mono 24 (by norm_num) (-149) a b h

/-- A value between two values whose roundings are finite has a finite rounding,
between theirs. -/
theorem round32_between (a q b va vb : ℚ) (ha : round32 a = FVal.fin va)
    (hb : round32 b = FVal.fin vb) (h1 : a ≤ q) (h2 : q ≤ b) :
    ∃ v, round32 q = FVal.fin v ∧ va ≤ v ∧ v ≤ vb := by
  obtain ⟨ea, fa⟩ := roundF_fin 24 (-149) 127 a va ha
  obtain ⟨eb, fb⟩ := roundF_fin 24 (-149) 127 b vb hb
  have m1 := roundQ_mono 24 (by norm_num) (-149) a q h1
  have m2 := roundQ_mono 24 (by norm_num) (-149) q b h2
  have hfin : |roundQ 24 (-149) q| < (2 : ℚ) ^ ((127 : Int) + 1) := by
    rw [abs_lt] at fa fb ⊢
    constructor <;> linarith [fa.1, fb.2]
  refine ⟨roundQ 24 (-149) q, roundF_of_lt 24 (-149) 127 q hfin, ?_, ?_⟩
  · rw [ea]; exact m1
  · rw [eb]; exact m2

/-- The rounding of a non-negative number is never negative. -/
theorem round32_nonneg (q : ℚ) (hq : 0 ≤ q) :
    (∃ v, round32 q = FVal.fin v ∧ 0 ≤ v) ∨ round32 q = FVal.inf false := by
  have hr : 0 ≤ roundQ 24 (-149) q := by
    unfold roundQ
    rw [if_neg (not_lt.mpr hq)]
    exact roundPos_nonneg 24 (-149) q hq
  unfold round32 roundF
  split_ifs with hov
  · right
    have : decide (q < 0) = false := by simpa using hq
    rw [this]
  · left
    exact ⟨_, rfl, hr⟩

/-- Evaluation of `round32` at an expression whose value `r` is a `float`. -/
theorem round32_exact (q r : ℚ) (m : Int) (e : Int) (hqr : q = r) (hr : r = m * 2 ^ e)
    (hm : |m| < 2 ^ 24) (he : -149 ≤ e) (hlo : -(2 ^ 128) < r) (hhi : r < 2 ^ 128) :
    round32 q = FVal.fin r := by
  rw [hqr]
  exact round32_of_grid r m e hr hm he hlo hhi

theorem round32_zero : round32 0 = FVal.fin 0 := by
  apply round32_of_grid 0 0 0 <;> norm_num

/-- Small integers are `float` values. -/
theorem round32_int (n : Int) (hn : |n| < 2 ^ 24) : round32 (n : ℚ) = FVal.fin (n : ℚ) := by
  have h1 : |(n : ℚ)| < 2 ^ 24 := by
    have : ((|n| : Int) : ℚ) < ((2 ^ 24 : Int) : ℚ) := by exact_mod_cast hn
    simpa using this
  have h2 : (2 : ℚ) ^ 24 < 2 ^ 128 := by norm_num
  rw [abs_lt] at h1
  apply round32_of_grid (n : ℚ) n 0
  · simp
  · exact hn
  · norm_num
  · linarith [h1.1]
  · linarith [h1.2]

/-- The value of `PATH_KAPPA`: the `float` nearest to 0.552284 is
`9265788 / 2 ^ 24`. -/
theorem PATH_KAPPA_eq : Binary32.PATH_KAPPA = FVal.fin (2316447 / 4194304) := by
  unfold Binary32.PATH_KAPPA
  apply round32_eval_pos (552284 / 1000000) (-1) (-24) 9265788
  · norm_num
  · norm_num
  · norm_num
  · apply rne_eq_of_lt <;> norm_num
  · norm_num
  · norm_num

/-! ## The transform setters in `float` arithmetic -/

theorem roundQ_zero (prec : Nat) (qmin : Int) : roundQ prec qmin 0 = 0 := by
  simp [roundQ, roundPos_zero]

theorem round32_neg (q : ℚ) : round32 (-q) = FVal.neg (round32 q) := by
  unfold round32 roundF
  rw [roundQ_neg, abs_neg]
  split_ifs with hov
  · have hq : q ≠ 0 := by
      intro h0
      rw [h0, roundQ_zero, abs_zero] at hov
      exact absurd hov (not_le.mpr (two_zpow_pos _))
    rcases lt_or_gt_of_ne hq with hlt | hgt
    · have h1 : ¬ (-q < 0) := by linarith
      simp [FVal.neg, hlt, h1]
    · have h1 : -q < 0 := by linarith
      have h2 : ¬ q < 0 := by linarith
      simp [FVal.neg, h1, h2]
  · simp [FVal.neg]

theorem fsub_fin (a b : ℚ) : fsub (FVal.fin a) (FVal.fin b) = round32 (a - b) := by
  simp [fsub, FVal.add, FVal.neg, sub_eq_add_neg]

theorem fadd_fin (a b : ℚ) : fadd (FVal.fin a) (FVal.fin b) = round32 (a + b) := by
  simp [fadd, FVal.add]

theorem fmul_fin (a b : ℚ) : fmul (FVal.fin a) (FVal.fin b) = round32 (a * b) := by
  simp [fmul, FVal.mul]

theorem rotate_accept (impl : Binary32.Impl) (degree : FVal)
    (h : FVal.le (Binary32.fabsf (fsub degree impl.rotate)) Binary32.FLT_EPSILON = false) :
    Binary32.Shape.rotate impl degree =
      (0, { impl with rotate := degree, flag := impl.flag ||| RenderUpdateFlag.Transform }) := by
  simp [Binary32.Shape.rotate, h]

theorem rotate_reject (impl : Binary32.Impl) (degree : FVal)
    (h : FVal.le (Binary32.fabsf (fsub degree impl.rotate)) Binary32.FLT_EPSILON = true) :
    Binary32.Shape.rotate impl degree = (-1, impl) := by
  simp [Binary32.Shape.rotate, h]

/-- A difference of exact magnitude at most `2⁻²³` rounds to a `float` of
magnitude at most `2⁻²³`. -/
theorem round32_small (q : ℚ) (h : |q| ≤ 1 / 8388608) :
    ∃ v, round32 q = FVal.fin v ∧ |v| ≤ 1 / 8388608 := by
  have hpos : round32 (1 / 8388608) = FVal.fin (1 / 8388608) := by
    apply round32_of_grid _ 1 (-23) <;> norm_num
  have hneg : round32 (-(1 / 8388608)) = FVal.fin (-(1 / 8388608)) := by
    rw [round32_neg, hpos]
    rfl
  rw [abs_le] at h
  obtain ⟨v, hv, h1, h2⟩ := round32_between _ q _ _ _ hneg hpos h.1 h.2
  exact ⟨v, hv, abs_le.mpr ⟨h1, h2⟩⟩

/-- C8 (amended): for every finite degree and every state with a finite
rotation, `Shape::rotate(degree)` returns -1 exactly when the `float` difference
`degree - currentRotation`, rounded to nearest, has magnitude at most
`FLT_EPSILON`, and then the whole record is unchanged; otherwise it returns 0,
the accessor returns exactly `degree`, the Transform flag is set and scale,
colour, path and the Path and Fill flags are unchanged.  The call is rejected
whenever the exact difference has magnitude at most `2⁻²³`.  There is no
degenerate-value rejection: a degree of 0 is accepted whenever the current
rotation is a `float` of magnitude above `2⁻²³`. -/
theorem rotate_float_difference (impl : Binary32.Impl) (d c : ℚ)
    (hc : impl.rotate = FVal.fin c) :
    ((Binary32.Shape.rotate impl (FVal.fin d)).1 = -1 ↔
      FVal.le (Binary32.fabsf (fsub (FVal.fin d) (FVal.fin c))) Binary32.FLT_EPSILON = true) ∧
    ((Binary32.Shape.rotate impl (FVal.fin d)).1 = -1 →
      (Binary32.Shape.rotate impl (FVal.fin d)).2 = impl) ∧
    ((Binary32.Shape.rotate impl (FVal.fin d)).1 ≠ -1 →
      (Binary32.Shape.rotate impl (FVal.fin d)).1 = 0 ∧
      Binary32.Shape.rotateConst (Binary32.Shape.rotate impl (FVal.fin d)).2 = FVal.fin d ∧
      flagSet (Binary32.Shape.rotate impl (FVal.fin d)).2.flag RenderUpdateFlag.Transform = true ∧
      (Binary32.Shape.rotate impl (FVal.fin d)).2.scale = impl.scale ∧
      (Binary32.Shape.rotate impl (FVal.fin d)).2.color = impl.color ∧
      (Binary32.Shape.rotate impl (FVal.fin d)).2.path = impl.path ∧
      flagSet (Binary32.Shape.rotate impl (FVal.fin d)).2.flag RenderUpdateFlag.Path =
        flagSet impl.flag RenderUpdateFlag.Path ∧
      flagSet (Binary32.Shape.rotate impl (FVal.fin d)).2.flag RenderUpdateFlag.Fill =
        flagSet impl.flag RenderUpdateFlag.Fill) ∧
    (|d - c| ≤ 1 / 8388608 → (Binary32.Shape.rotate impl (FVal.fin d)).1 = -1) ∧
    (d = 0 → round32 c = FVal.fin c → 1 / 8388608 < |c| →
      (Binary32.Shape.rotate impl (FVal.fin d)).1 = 0 ∧
      (Binary32.Shape.rotate impl (FVal.fin d)).2.rotate = FVal.fin 0) := by
  cases hle : FVal.le (Binary32.fabsf (fsub (FVal.fin d) (FVal.fin c))) Binary32.FLT_EPSILON with
  | true =>
    have hle2 : FVal.le (Binary32.fabsf (fsub (FVal.fin d) impl.rotate)) Binary32.FLT_EPSILON
        = true := by rw [hc]; exact hle
    rw [rotate_reject impl (FVal.fin d) hle2]
    refine ⟨by simp, fun _ => rfl, fun hne => absurd rfl hne, fun _ => rfl, ?_⟩
    intro hd hrep hgt
    exfalso
    rw [hd, fsub_fin, zero_sub, round32_neg, hrep] at hle
    simp only [Binary32.fabsf, FVal.neg, FVal.abs, Binary32.FLT_EPSILON, FVal.le, abs_neg,
      decide_eq_true_eq] at hle
    linarith
  | false =>
    have hle2 : FVal.le (Binary32.fabsf (fsub (FVal.fin d) impl.rotate)) Binary32.FLT_EPSILON
        = false := by rw [hc]; exact hle
    rw [rotate_accept impl (FVal.fin d) hle2]
    refine ⟨by simp, fun h => by simp at h, fun _ => ⟨rfl, rfl,
      flagSet_or_Transform_Transform impl.flag, rfl, rfl, rfl,
      flagSet_or_Transform_Path impl.flag, flagSet_or_Transform_Fill impl.flag⟩, ?_,
      fun hd _ _ => ⟨rfl, by rw [hd]⟩⟩
    intro hsmall
    exfalso
    obtain ⟨v, hv, hvle⟩ := round32_small (d - c) hsmall
    rw [fsub_fin, hv] at hle
    simp only [Binary32.fabsf, FVal.abs, Binary32.FLT_EPSILON, FVal.le,
      decide_eq_false_iff_not] at hle
    exact hle hvle

/-- The witness of amended C8: on a shape rotated by 90 degrees, `rotate(90)` is
rejected and changes nothing, and `rotate(0)` is accepted. -/
theorem rotate_float_difference_witness :
    (Binary32.Shape.rotate { Binary32.emptyShape with rotate := FVal.fin 90 } (FVal.fin 90)).1
      = -1 ∧
    (Binary32.Shape.rotate { Binary32.emptyShape with rotate := FVal.fin 90 } (FVal.fin 0)).1
      = 0 ∧
    (Binary32.Shape.rotate { Binary32.emptyShape with rotate := FVal.fin 90 }
      (FVal.fin 0)).2.rotate = FVal.fin 0 :=
  ⟨(rotate_float_difference { Binary32.emptyShape with rotate := FVal.fin 90 } 90 90
      rfl).2.2.2.1 (by norm_num),
    (rotate_float_difference { Binary32.emptyShape with rotate := FVal.fin 90 } 0 90
      rfl).2.2.2.2 rfl (round32_int 90 (by norm_num)) (by norm_num)⟩

/-- C8, as stated, fails: after `rotate(1)` and `rotate(2⁻²³)` on a fresh shape
the rotation is `2⁻²³`; the degree `-2⁻⁶⁰` has magnitude below epsilon and
differs from the rotation by `2⁻²³ + 2⁻⁶⁰`, more than epsilon, yet
`rotate(-2⁻⁶⁰)` returns -1, because the `float` difference rounds to `-2⁻²³`. -/
theorem rotate_rounded_difference_rejected :
    (Binary32.Shape.rotate
      (Binary32.Shape.rotate Binary32.emptyShape (FVal.fin 1)).2
      (FVal.fin (1 / 2 ^ 23))).2.rotate = FVal.fin (1 / 2 ^ 23) ∧
    |(-(1 / 2 ^ 60) : ℚ)| < 1 / 8388608 ∧
    ¬ (|(-(1 / 2 ^ 60) : ℚ) - 1 / 2 ^ 23| ≤ 1 / 8388608) ∧
    (Binary32.Shape.rotate
      (Binary32.Shape.rotate
        (Binary32.Shape.rotate Binary32.emptyShape (FVal.fin 1)).2
        (FVal.fin (1 / 2 ^ 23))).2
      (FVal.fin (-(1 / 2 ^ 60)))).1 = -1 := by
  have e1 : round32 (1 - 0) = FVal.fin 1 := by
    apply round32_exact _ _ 1 0 <;> norm_num
  have s1 : Binary32.Shape.rotate Binary32.emptyShape (FVal.fin 1) =
      (0, { Binary32.emptyShape with
              rotate := FVal.fin 1,
              flag := Binary32.emptyShape.flag ||| RenderUpdateFlag.Transform }) := by
    apply rotate_accept
    have : Binary32.emptyShape.rotate = FVal.fin 0 := rfl
    rw [this, fsub_fin, e1]
    simp only [Binary32.fabsf, FVal.abs, Binary32.FLT_EPSILON, FVal.le, decide_eq_false_iff_not]
    norm_num
  have e2 : round32 (1 / 2 ^ 23 - 1) = FVal.fin (-8388607 / 8388608) := by
    apply round32_exact _ _ (-8388607) (-23) <;> norm_num
  have s2 : Binary32.Shape.rotate (Binary32.Shape.rotate Binary32.emptyShape (FVal.fin 1)).2
      (FVal.fin (1 / 2 ^ 23)) =
      (0, { (Binary32.Shape.rotate Binary32.emptyShape (FVal.fin 1)).2 with
              rotate := FVal.fin (1 / 2 ^ 23),
              flag := (Binary32.Shape.rotate Binary32.emptyShape (FVal.fin 1)).2.flag |||
                RenderUpdateFlag.Transform }) := by
    apply rotate_accept
    rw [s1]
    simp only []
    rw [fsub_fin, e2]
    simp only [Binary32.fabsf, FVal.abs, Binary32.FLT_EPSILON, FVal.le, decide_eq_false_iff_not]
    norm_num [abs_of_neg]
  have e3 : round32 (-(1 / 2 ^ 60) - 1 / 2 ^ 23) = FVal.fin (-(1 / 2 ^ 23)) := by
    have hpos : round32 (1 / 2 ^ 60 + 1 / 2 ^ 23) = FVal.fin (1 / 2 ^ 23) := by
      apply round32_eval_pos _ (-23) (-46) 8388608
      · norm_num
      · norm_num
      · norm_num
      · apply rne_eq_of_lt <;> norm_num
      · norm_num
      · norm_num
    have : (-(1 / 2 ^ 60) - 1 / 2 ^ 23 : ℚ) = -(1 / 2 ^ 60 + 1 / 2 ^ 23) := by ring
    rw [this, round32_neg, hpos]
    rfl
  refine ⟨?_, ?_, ?_, ?_⟩
  · rw [s2]
  · norm_num [abs_of_neg]
  · norm_num [abs_of_neg]
  · apply congrArg Prod.fst (rotate_reject _ _ ?_)
    rw [s2]
    simp only []
    rw [fsub_fin, e3]
    simp only [Binary32.fabsf, FVal.abs, Binary32.FLT_EPSILON, FVal.le, decide_eq_true_eq]
    norm_num [abs_of_neg]

/-! ## The rectangle generator in `float` arithmetic -/

theorem appendRect_float_unfold (impl : Binary32.Impl) (x y w h cornerRadius : FVal) :
    Binary32.Shape.appendRect impl x y w h cornerRadius =
      if FVal.eq (Binary32.clampRadius w h cornerRadius) (FVal.fin 0) then
        (0, { impl with
                path := { cmds := impl.path.cmds ++ [PathCommand.MoveTo, PathCommand.LineTo,
                            PathCommand.LineTo, PathCommand.LineTo, PathCommand.Close],
                          pts := impl.path.pts ++ [⟨x, y⟩, ⟨fadd x w, y⟩,
                            ⟨fadd x w, fadd y h⟩, ⟨x, fadd y h⟩] },
                flag := impl.flag ||| RenderUpdateFlag.Path })
      else if FVal.eq w h &&
          FVal.eq (fmul (Binary32.clampRadius w h cornerRadius) (FVal.fin 2)) w then
        Binary32.Shape.appendCircle impl (fadd x (fmul w (FVal.fin (1 / 2))))
          (fadd y (fmul h (FVal.fin (1 / 2)))) (Binary32.clampRadius w h cornerRadius)
          (Binary32.clampRadius w h cornerRadius)
      else
        (0, { impl with
                path := { cmds := impl.path.cmds ++ [PathCommand.MoveTo, PathCommand.LineTo,
                            PathCommand.CubicTo, PathCommand.LineTo, PathCommand.CubicTo,
                            PathCommand.LineTo, PathCommand.CubicTo, PathCommand.LineTo,
                            PathCommand.CubicTo, PathCommand.Close],
                          pts := impl.path.pts ++
                            [⟨fadd x (Binary32.clampRadius w h cornerRadius), y⟩,
                             ⟨fsub (fadd x w) (Binary32.clampRadius w h cornerRadius), y⟩,
                             ⟨toFloat (dadd (fsub (fadd x w) (Binary32.clampRadius w h cornerRadius))
                                (dmul (Binary32.clampRadius w h cornerRadius) (FVal.fin (1 / 2)))), y⟩,
                             ⟨fadd x w, toFloat (dsub (fadd y (Binary32.clampRadius w h cornerRadius))
                                (dmul (Binary32.clampRadius w h cornerRadius) (FVal.fin (1 / 2))))⟩,
                             ⟨fadd x w, fadd y (Binary32.clampRadius w h cornerRadius)⟩,
                             ⟨fadd x w, fsub (fadd y h) (Binary32.clampRadius w h cornerRadius)⟩,
                             ⟨fadd x w, toFloat (dadd (fsub (fadd y h) (Binary32.clampRadius w h cornerRadius))
                                (dmul (Binary32.clampRadius w h cornerRadius) (FVal.fin (1 / 2))))⟩,
                             ⟨toFloat (dadd (fsub (fadd x w) (Binary32.clampRadius w h cornerRadius))
                                (dmul (Binary32.clampRadius w h cornerRadius) (FVal.fin (1 / 2)))), fadd y h⟩,
                             ⟨fsub (fadd x w) (Binary32.clampRadius w h cornerRadius), fadd y h⟩,
                             ⟨fadd x (Binary32.clampRadius w h cornerRadius), fadd y h⟩,
                             ⟨toFloat (dsub (fadd x (Binary32.clampRadius w h cornerRadius))
                                (dmul (Binary32.clampRadius w h cornerRadius) (FVal.fin (1 / 2)))), fadd y h⟩,
                             ⟨x, toFloat (dadd (fsub (fadd y h) (Binary32.clampRadius w h cornerRadius))
                                (dmul (Binary32.clampRadius w h cornerRadius) (FVal.fin (1 / 2))))⟩,
                             ⟨x, fsub (fadd y h) (Binary32.clampRadius w h cornerRadius)⟩,
                             ⟨x, fadd y (Binary32.clampRadius w h cornerRadius)⟩,
                             ⟨x, toFloat (dsub (fadd y (Binary32.clampRadius w h cornerRadius))
                                (dmul (Binary32.clampRadius w h cornerRadius) (FVal.fin (1 / 2))))⟩,
                             ⟨toFloat (dsub (fadd x (Binary32.clampRadius w h cornerRadius))
                                (dmul (Binary32.clampRadius w h cornerRadius) (FVal.fin (1 / 2)))), y⟩,
                             ⟨fadd x (Binary32.clampRadius w h cornerRadius), y⟩] },
                flag := impl.flag ||| RenderUpdateFlag.Path }) := by
  simp only [Binary32.Shape.appendRect, Binary32.clampRadius, Binary32.ShapePath.grow,
    Binary32.ShapePath.moveTo, Binary32.ShapePath.lineTo, Binary32.ShapePath.cubicTo,
    Binary32.ShapePath.close, List.append_assoc, List.cons_append, List.nil_append,
    List.singleton_append]

/-- The half of the least positive `float` underflows to 0: `2⁻¹⁵⁰` is a tie
between 0 and `2⁻¹⁴⁹` and goes to the even one. -/
theorem round32_half_least : round32 (1 / 2 ^ 149 * (1 / 2)) = FVal.fin 0 := by
  apply round32_eval_pos _ (-150) (-149) 0
  · norm_num
  · norm_num
  · norm_num
  · have : (1 / 2 ^ 149 * (1 / 2) : ℚ) / 2 ^ (-149 : Int) = ((0 : Int) : ℚ) + 1 / 2 := by
      norm_num
    rw [this, rne_tie]
    norm_num
  · norm_num
  · norm_num

/-- C2 (amended): let `r` be the corner radius after the code's clamp in `float`
arithmetic.  When `r` is not 0 and not (`w == h` and `r * 2 == w`), `appendRect`
returns 0 and appends exactly the ten commands MoveTo, LineTo, CubicTo, LineTo,
CubicTo, LineTo, CubicTo, LineTo, CubicTo, Close and exactly seventeen points,
starting at `(x + r, y)` and going clockwise through the four corners; each
corner is one cubic whose control points are the adjacent tangent point moved
by `r * 0.5` towards the corner, the product and the sum being formed in
`double` and the result rounded to `float`; the last appended point is the
MoveTo point. -/
theorem appendRect_rounded_float (impl : Binary32.Impl) (x y w h cornerRadius r : FVal)
    (hr : r = Binary32.clampRadius w h cornerRadius)
    (h0 : FVal.eq r (FVal.fin 0) = false)
    (hc : (FVal.eq w h && FVal.eq (fmul r (FVal.fin 2)) w) = false) :
    (Binary32.Shape.appendRect impl x y w h cornerRadius).1 = 0 ∧
    (Binary32.Shape.appendRect impl x y w h cornerRadius).2.path.cmds =
      impl.path.cmds ++ [PathCommand.MoveTo, PathCommand.LineTo, PathCommand.CubicTo,
        PathCommand.LineTo, PathCommand.CubicTo, PathCommand.LineTo, PathCommand.CubicTo,
        PathCommand.LineTo, PathCommand.CubicTo, PathCommand.Close] ∧
    (Binary32.Shape.appendRect impl x y w h cornerRadius).2.path.pts =
      impl.path.pts ++
        [⟨fadd x r, y⟩,
         ⟨fsub (fadd x w) r, y⟩,
         ⟨toFloat (dadd (fsub (fadd x w) r) (dmul r (FVal.fin (1 / 2)))), y⟩,
         ⟨fadd x w, toFloat (dsub (fadd y r) (dmul r (FVal.fin (1 / 2))))⟩,
         ⟨fadd x w, fadd y r⟩,
         ⟨fadd x w, fsub (fadd y h) r⟩,
         ⟨fadd x w, toFloat (dadd (fsub (fadd y h) r) (dmul r (FVal.fin (1 / 2))))⟩,
         ⟨toFloat (dadd (fsub (fadd x w) r) (dmul r (FVal.fin (1 / 2)))), fadd y h⟩,
         ⟨fsub (fadd x w) r, fadd y h⟩,
         ⟨fadd x r, fadd y h⟩,
         ⟨toFloat (dsub (fadd x r) (dmul r (FVal.fin (1 / 2)))), fadd y h⟩,
         ⟨x, toFloat (dadd (fsub (fadd y h) r) (dmul r (FVal.fin (1 / 2))))⟩,
         ⟨x, fsub (fadd y h) r⟩,
         ⟨x, fadd y r⟩,
         ⟨x, toFloat (dsub (fadd y r) (dmul r (FVal.fin (1 / 2))))⟩,
         ⟨toFloat (dsub (fadd x r) (dmul r (FVal.fin (1 / 2)))), y⟩,
         ⟨fadd x r, y⟩] ∧
    (Binary32.Shape.appendRect impl x y w h cornerRadius).2.path.cmds.length =
      impl.path.cmds.length + 10 ∧
    (Binary32.Shape.appendRect impl x y w h cornerRadius).2.path.pts.length =
      impl.path.pts.length + 17 ∧
    (Binary32.Shape.appendRect impl x y w h cornerRadius).2.path.pts.getLast? =
      some ⟨fadd x r, y⟩ := by
  rw [appendRect_float_unfold, ← hr, h0, hc]
  simp

/-- The witness of amended C2: a 10 × 6 rectangle with corner radius 2. -/
theorem appendRect_rounded_float_witness :
    (FVal.fin 2 : FVal) = Binary32.clampRadius (FVal.fin 10) (FVal.fin 6) (FVal.fin 2) ∧
    (Binary32.Shape.appendRect Binary32.emptyShape (FVal.fin 0) (FVal.fin 0) (FVal.fin 10)
      (FVal.fin 6) (FVal.fin 2)).2.path.cmds.length = Binary32.emptyShape.path.cmds.length + 10 ∧
    (Binary32.Shape.appendRect Binary32.emptyShape (FVal.fin 0) (FVal.fin 0) (FVal.fin 10)
      (FVal.fin 6) (FVal.fin 2)).2.path.pts.length = Binary32.emptyShape.path.pts.length + 17 := by
  have h3 : round32 (6 * (1 / 2)) = FVal.fin 3 := by
    apply round32_exact _ _ 3 0 <;> norm_num
  have hlt1 : FVal.lt (FVal.fin 10) (FVal.fin 6) = false := by
    simp only [FVal.lt, decide_eq_false_iff_not]
    norm_num
  have hlt2 : FVal.lt (FVal.fin 3) (FVal.fin 2) = false := by
    simp only [FVal.lt, decide_eq_false_iff_not]
    norm_num
  have hclamp : (FVal.fin 2 : FVal) =
      Binary32.clampRadius (FVal.fin 10) (FVal.fin 6) (FVal.fin 2) := by
    simp only [Binary32.clampRadius, hlt1, Bool.false_eq_true, if_false, fmul_fin, h3, hlt2]
  have key := appendRect_rounded_float Binary32.emptyShape (FVal.fin 0) (FVal.fin 0)
    (FVal.fin 10) (FVal.fin 6) (FVal.fin 2) (FVal.fin 2) hclamp (by simp [FVal.eq])
    (by simp [FVal.eq])
  exact ⟨hclamp, key.2.2.2.1, key.2.2.2.2.1⟩

/-- C2, as stated, fails: for `w = 2⁻¹⁴⁹`, `h = 1`, `cornerRadius = 2⁻¹⁴⁹` the
exact clamp `min(cornerRadius, min(w,h)/2) = 2⁻¹⁵⁰` is not 0 and `w ≠ h`, but the
code's clamp `w * 0.5f` underflows to 0 and the plain rectangle (5 commands, 4
points) is emitted, not the 10 commands and 17 points. -/
theorem appendRect_subnormal_takes_plain_branch :
    min (1 / 2 ^ 149 : ℚ) (min (1 / 2 ^ 149) 1 / 2) ≠ 0 ∧
    ¬ ((1 / 2 ^ 149 : ℚ) = 1 ∧ 2 * min (1 / 2 ^ 149 : ℚ) (min (1 / 2 ^ 149) 1 / 2) = 1 / 2 ^ 149) ∧
    (Binary32.Shape.appendRect Binary32.emptyShape (FVal.fin 0) (FVal.fin 0)
      (FVal.fin (1 / 2 ^ 149)) (FVal.fin 1) (FVal.fin (1 / 2 ^ 149))).2.path.cmds =
      [PathCommand.MoveTo, PathCommand.LineTo, PathCommand.LineTo, PathCommand.LineTo,
        PathCommand.Close] ∧
    (Binary32.Shape.appendRect Binary32.emptyShape (FVal.fin 0) (FVal.fin 0)
      (FVal.fin (1 / 2 ^ 149)) (FVal.fin 1) (FVal.fin (1 / 2 ^ 149))).2.path.pts.length = 4 := by
  have hclamp : Binary32.clampRadius (FVal.fin (1 / 2 ^ 149)) (FVal.fin 1) (FVal.fin (1 / 2 ^ 149))
      = FVal.fin 0 := by
    have hlt : FVal.lt (FVal.fin (1 / 2 ^ 149)) (FVal.fin 1) = true := by
      simp only [FVal.lt, decide_eq_true_eq]
      norm_num
    simp only [Binary32.clampRadius, hlt, if_true, fmul_fin, round32_half_least]
    have : FVal.lt (FVal.fin 0) (FVal.fin (1 / 2 ^ 149)) = true := by
      simp only [FVal.lt, decide_eq_true_eq]
      norm_num
    rw [this]
    rfl
  refine ⟨by norm_num, by norm_num, ?_, ?_⟩
  · rw [appendRect_float_unfold, hclamp]
    simp [FVal.eq, Binary32.emptyShape]
  · rw [appendRect_float_unfold, hclamp]
    simp [FVal.eq, Binary32.emptyShape]

/-- C4, as stated, fails also for a non-zero side: for `w = 2⁻¹⁴⁹` the half
`w * 0.5f` underflows to 0, so `appendRect(0, 0, w, w, w/2)` emits the plain
rectangle (5 commands) while `appendCircle(0 + w/2, 0 + w/2, w/2, w/2)` emits 6
commands. -/
theorem appendRect_half_side_subnormal_ne_appendCircle :
    Binary32.Shape.appendRect Binary32.emptyShape (FVal.fin 0) (FVal.fin 0)
        (FVal.fin (1 / 2 ^ 149)) (FVal.fin (1 / 2 ^ 149))
        (fmul (FVal.fin (1 / 2 ^ 149)) (FVal.fin (1 / 2))) ≠
      Binary32.Shape.appendCircle Binary32.emptyShape
        (fadd (FVal.fin 0) (fmul (FVal.fin (1 / 2 ^ 149)) (FVal.fin (1 / 2))))
        (fadd (FVal.fin 0) (fmul (FVal.fin (1 / 2 ^ 149)) (FVal.fin (1 / 2))))
        (fmul (FVal.fin (1 / 2 ^ 149)) (FVal.fin (1 / 2)))
        (fmul (FVal.fin (1 / 2 ^ 149)) (FVal.fin (1 / 2))) := by
  have hhalf : fmul (FVal.fin (1 / 2 ^ 149)) (FVal.fin (1 / 2)) = FVal.fin 0 := by
    rw [fmul_fin, round32_half_least]
  have hclamp : Binary32.clampRadius (FVal.fin (1 / 2 ^ 149)) (FVal.fin (1 / 2 ^ 149))
      (FVal.fin 0) = FVal.fin 0 := by
    simp only [Binary32.clampRadius, ite_self, hhalf]
  intro heq
  have hlen := congrArg (fun r => r.2.path.cmds.length) heq
  rw [hhalf, appendRect_float_unfold, hclamp] at hlen
  simp [FVal.eq, Binary32.emptyShape, Binary32.Shape.appendCircle, Binary32.ShapePath.grow,
    Binary32.ShapePath.moveTo, Binary32.ShapePath.cubicTo, Binary32.ShapePath.close] at hlen

theorem FVal_eq_self_of_eq (a w : FVal) (h : FVal.eq a w = true) : FVal.eq w w = true := by
  cases a <;> cases w <;> simp_all [FVal.eq]

theorem FVal_lt_irrefl (a : FVal) : FVal.lt a a = false := by
  cases a <;> simp [FVal.lt]

/-- C4 (amended): for every shape state, every `x`, `y` and every `w` whose
`float` half `w * 0.5f` is not 0 and doubles back to `w`, `appendRect(x, y, w,
w, w * 0.5f)` gives the same returned value and the same resulting state as
`appendCircle(x + w * 0.5f, y + w * 0.5f, w * 0.5f, w * 0.5f)`. -/
theorem appendRect_half_side_eq_appendCircle_float (impl : Binary32.Impl) (x y w : FVal)
    (h0 : FVal.eq (fmul w (FVal.fin (1 / 2))) (FVal.fin 0) = false)
    (h2 : FVal.eq (fmul (fmul w (FVal.fin (1 / 2))) (FVal.fin 2)) w = true) :
    Binary32.Shape.appendRect impl x y w w (fmul w (FVal.fin (1 / 2))) =
      Binary32.Shape.appendCircle impl (fadd x (fmul w (FVal.fin (1 / 2))))
        (fadd y (fmul w (FVal.fin (1 / 2)))) (fmul w (FVal.fin (1 / 2)))
        (fmul w (FVal.fin (1 / 2))) := by
  have hclamp : Binary32.clampRadius w w (fmul w (FVal.fin (1 / 2))) =
      fmul w (FVal.fin (1 / 2)) := by
    simp [Binary32.clampRadius, FVal_lt_irrefl]
  have hww := FVal_eq_self_of_eq _ w h2
  rw [appendRect_float_unfold, hclamp, h0, hww, h2]
  simp

/-- The witness of amended C4: a square of side 4. -/
theorem appendRect_half_side_eq_appendCircle_float_witness :
    FVal.eq (fmul (FVal.fin 4) (FVal.fin (1 / 2))) (FVal.fin 0) = false ∧
    FVal.eq (fmul (fmul (FVal.fin 4) (FVal.fin (1 / 2))) (FVal.fin 2)) (FVal.fin 4) = true ∧
    Binary32.Shape.appendRect Binary32.emptyShape (FVal.fin 1) (FVal.fin 2) (FVal.fin 4)
        (FVal.fin 4) (fmul (FVal.fin 4) (FVal.fin (1 / 2))) =
      Binary32.Shape.appendCircle Binary32.emptyShape
        (fadd (FVal.fin 1) (fmul (FVal.fin 4) (FVal.fin (1 / 2))))
        (fadd (FVal.fin 2) (fmul (FVal.fin 4) (FVal.fin (1 / 2))))
        (fmul (FVal.fin 4) (FVal.fin (1 / 2))) (fmul (FVal.fin 4) (FVal.fin (1 / 2))) := by
  have hhalf : fmul (FVal.fin 4) (FVal.fin (1 / 2)) = FVal.fin 2 := by
    rw [fmul_fin]
    apply round32_exact _ _ 2 0 <;> norm_num
  have hdouble : fmul (FVal.fin 2) (FVal.fin 2) = FVal.fin 4 := by
    rw [fmul_fin]
    apply round32_exact _ _ 4 0 <;> norm_num
  have a0 : FVal.eq (fmul (FVal.fin 4) (FVal.fin (1 / 2))) (FVal.fin 0) = false := by
    rw [hhalf]; simp [FVal.eq]
  have a2 : FVal.eq (fmul (fmul (FVal.fin 4) (FVal.fin (1 / 2))) (FVal.fin 2)) (FVal.fin 4)
      = true := by
    rw [hhalf, hdouble]; simp [FVal.eq]
  exact ⟨a0, a2, appendRect_half_side_eq_appendCircle_float Binary32.emptyShape (FVal.fin 1)
    (FVal.fin 2) (FVal.fin 4) a0 a2⟩

/-! ## The min/max fold of `bounds` in `float` arithmetic -/

theorem foldl_fmin_x (rest : List Binary32.Point) (p0 : Binary32.Point) :
    (rest.foldl (fun m q => (⟨if FVal.lt q.x m.x then q.x else m.x,
        if FVal.lt q.y m.y then q.y else m.y⟩ : Binary32.Point)) p0).x =
      rest.foldl (fun a q => if FVal.lt q.x a then q.x else a) p0.x := by
  induction rest generalizing p0 with
  | nil => rfl
  | cons q t ih => simp only [List.foldl_cons]; rw [ih]

theorem foldl_fmin_y (rest : List Binary32.Point) (p0 : Binary32.Point) :
    (rest.foldl (fun m q => (⟨if FVal.lt q.x m.x then q.x else m.x,
        if FVal.lt q.y m.y then q.y else m.y⟩ : Binary32.Point)) p0).y =
      rest.foldl (fun a q => if FVal.lt q.y a then q.y else a) p0.y := by
  induction rest generalizing p0 with
  | nil => rfl
  | cons q t ih => simp only [List.foldl_cons]; rw [ih]

theorem foldl_fmax_x (rest : List Binary32.Point) (p0 : Binary32.Point) :
    (rest.foldl (fun m q => (⟨if FVal.lt m.x q.x then q.x else m.x,
        if FVal.lt m.y q.y then q.y else m.y⟩ : Binary32.Point)) p0).x =
      rest.foldl (fun a q => if FVal.lt a q.x then q.x else a) p0.x := by
  induction rest generalizing p0 with
  | nil => rfl
  | cons q t ih => simp only [List.foldl_cons]; rw [ih]

theorem foldl_fmax_y (rest : List Binary32.Point) (p0 : Binary32.Point) :
    (rest.foldl (fun m q => (⟨if FVal.lt m.x q.x then q.x else m.x,
        if FVal.lt m.y q.y then q.y else m.y⟩ : Binary32.Point)) p0).y =
      rest.foldl (fun a q => if FVal.lt a q.y then q.y else a) p0.y := by
  induction rest generalizing p0 with
  | nil => rfl
  | cons q t ih => simp only [List.foldl_cons]; rw [ih]

/-- A `float` min fold over finite values equals `a` as soon as `a` is a lower
bound of the start value and of all folded values and is attained. -/
theorem foldl_fmin_eq (g : Binary32.Point → FVal) (l : List Binary32.Point) (m0 : FVal) (a : ℚ)
    (h0 : ∃ v, m0 = FVal.fin v ∧ a ≤ v) (hall : ∀ q ∈ l, ∃ v, g q = FVal.fin v ∧ a ≤ v)
    (hatt : m0 = FVal.fin a ∨ ∃ q ∈ l, g q = FVal.fin a) :
    l.foldl (fun m q => if FVal.lt (g q) m then g q else m) m0 = FVal.fin a := by
  induction l generalizing m0 with
  | nil =>
    rcases hatt with h | ⟨q, hq, _⟩
    · exact h
    · cases hq
  | cons q t ih =>
    simp only [List.foldl_cons]
    obtain ⟨v0, hm0, hv0⟩ := h0
    obtain ⟨v, hgq, hv⟩ := hall q (List.mem_cons_self q t)
    have hstep : (if FVal.lt (g q) m0 then g q else m0) = FVal.fin (min v v0) := by
      rw [hgq, hm0]
      simp only [FVal.lt]
      rcases lt_or_le v v0 with hlt | hle
      · simp [hlt, min_eq_left hlt.le]
      · simp [not_lt.mpr hle, min_eq_right hle]
    rw [hstep]
    apply ih
    · exact ⟨min v v0, rfl, le_min hv hv0⟩
    · intro z hz
      exact hall z (List.mem_cons_of_mem q hz)
    · rcases hatt with h | ⟨z, hz, hgz⟩
      · left
        rw [hm0] at h
        have hva : v0 = a := FVal.fin.inj h
        rw [hva, min_eq_right hv]
      · rcases List.mem_cons.mp hz with hzq | hzt
        · left
          rw [hzq, hgq] at hgz
          have hva : v = a := FVal.fin.inj hgz
          rw [hva, min_eq_left hv0]
        · exact Or.inr ⟨z, hzt, hgz⟩

/-- A `float` max fold over finite values equals `b` as soon as `b` is an upper
bound of the start value and of all folded values and is attained. -/
theorem foldl_fmax_eq (g : Binary32.Point → FVal) (l : List Binary32.Point) (m0 : FVal) (b : ℚ)
    (h0 : ∃ v, m0 = FVal.fin v ∧ v ≤ b) (hall : ∀ q ∈ l, ∃ v, g q = FVal.fin v ∧ v ≤ b)
    (hatt : m0 = FVal.fin b ∨ ∃ q ∈ l, g q = FVal.fin b) :
    l.foldl (fun m q => if FVal.lt m (g q) then g q else m) m0 = FVal.fin b := by
  induction l generalizing m0 with
  | nil =>
    rcases hatt with h | ⟨q, hq, _⟩
    · exact h
    · cases hq
  | cons q t ih =>
    simp only [List.foldl_cons]
    obtain ⟨v0, hm0, hv0⟩ := h0
    obtain ⟨v, hgq, hv⟩ := hall q (List.mem_cons_self q t)
    have hstep : (if FVal.lt m0 (g q) then g q else m0) = FVal.fin (max v v0) := by
      rw [hgq, hm0]
      simp only [FVal.lt]
      rcases lt_or_le v0 v with hlt | hle
      · simp [hlt, max_eq_left hlt.le]
      · simp [not_lt.mpr hle, max_eq_right hle]
    rw [hstep]
    apply ih
    · exact ⟨max v v0, rfl, max_le hv hv0⟩
    · intro z hz
      exact hall z (List.mem_cons_of_mem q hz)
    · rcases hatt with h | ⟨z, hz, hgz⟩
      · left
        rw [hm0] at h
        have hva : v0 = b := FVal.fin.inj h
        rw [hva, max_eq_right hv]
      · rcases List.mem_cons.mp hz with hzq | hzt
        · left
          rw [hzq, hgq] at hgz
          have hva : v = b := FVal.fin.inj hgz
          rw [hva, max_eq_left hv0]
        · exact Or.inr ⟨z, hzt, hgz⟩

/-- The box computed by the `float` `bounds` over finite points that all lie in
`[a, b] × [c, d]` and touch each of the four sides. -/
theorem bounds_float_of_box (p : Binary32.ShapePath) (a b c d : ℚ) (x0 y0 w0 h0 : FVal)
    (hin : ∀ q ∈ p.pts, ∃ qx qy : ℚ, q = ⟨FVal.fin qx, FVal.fin qy⟩ ∧
      a ≤ qx ∧ qx ≤ b ∧ c ≤ qy ∧ qy ≤ d)
    (hl : ∃ q ∈ p.pts, q.x = FVal.fin a) (hr : ∃ q ∈ p.pts, q.x = FVal.fin b)
    (ht : ∃ q ∈ p.pts, q.y = FVal.fin c) (hb : ∃ q ∈ p.pts, q.y = FVal.fin d) :
    p.bounds x0 y0 w0 h0 =
      (true, (FVal.fin a, FVal.fin c, fsub (FVal.fin b) (FVal.fin a),
        fsub (FVal.fin d) (FVal.fin c))) := by
  obtain ⟨cmds, pts⟩ := p
  cases pts with
  | nil =>
    obtain ⟨q, hq, _⟩ := hl
    cases hq
  | cons p0 rest =>
    have coordx : ∀ q ∈ p0 :: rest, ∃ v, q.x = FVal.fin v ∧ a ≤ v ∧ v ≤ b := by
      intro q hq
      obtain ⟨qx, qy, hqe, h1, h2, _, _⟩ := hin q hq
      exact ⟨qx, by rw [hqe], h1, h2⟩
    have coordy : ∀ q ∈ p0 :: rest, ∃ v, q.y = FVal.fin v ∧ c ≤ v ∧ v ≤ d := by
      intro q hq
      obtain ⟨qx, qy, hqe, _, _, h3, h4⟩ := hin q hq
      exact ⟨qy, by rw [hqe], h3, h4⟩
    have split : ∀ (g : Binary32.Point → FVal) (v : FVal), (∃ q ∈ p0 :: rest, g q = v) →
        g p0 = v ∨ ∃ q ∈ rest, g q = v := by
      intro g v hex
      obtain ⟨q, hq, hg⟩ := hex
      rcases List.mem_cons.mp hq with hqp | hqr
      · left
        rw [← hqp]; exact hg
      · exact Or.inr ⟨q, hqr, hg⟩
    have hmem0 := List.mem_cons_self p0 rest
    have hx : (rest.foldl (fun m q => (⟨if FVal.lt q.x m.x then q.x else m.x,
        if FVal.lt q.y m.y then q.y else m.y⟩ : Binary32.Point)) p0).x = FVal.fin a := by
      rw [foldl_fmin_x]
      apply foldl_fmin_eq (fun q => q.x) rest p0.x a
      · obtain ⟨v, hv, h1, _⟩ := coordx p0 hmem0
        exact ⟨v, hv, h1⟩
      · intro q hq
        obtain ⟨v, hv, h1, _⟩ := coordx q (List.mem_cons_of_mem p0 hq)
        exact ⟨v, hv, h1⟩
      · exact split (fun q => q.x) _ hl
    have hy : (rest.foldl (fun m q => (⟨if FVal.lt q.x m.x then q.x else m.x,
        if FVal.lt q.y m.y then q.y else m.y⟩ : Binary32.Point)) p0).y = FVal.fin c := by
      rw [foldl_fmin_y]
      apply foldl_fmin_eq (fun q => q.y) rest p0.y c
      · obtain ⟨v, hv, h1, _⟩ := coordy p0 hmem0
        exact ⟨v, hv, h1⟩
      · intro q hq
        obtain ⟨v, hv, h1, _⟩ := coordy q (List.mem_cons_of_mem p0 hq)
        exact ⟨v, hv, h1⟩
      · exact split (fun q => q.y) _ ht
    have hX : (rest.foldl (fun m q => (⟨if FVal.lt m.x q.x then q.x else m.x,
        if FVal.lt m.y q.y then q.y else m.y⟩ : Binary32.Point)) p0).x = FVal.fin b := by
      rw [foldl_fmax_x]
      apply foldl_fmax_eq (fun q => q.x) rest p0.x b
      · obtain ⟨v, hv, _, h2⟩ := coordx p0 hmem0
        exact ⟨v, hv, h2⟩
      · intro q hq
        obtain ⟨v, hv, _, h2⟩ := coordx q (List.mem_cons_of_mem p0 hq)
        exact ⟨v, hv, h2⟩
      · exact split (fun q => q.x) _ hr
    have hY : (rest.foldl (fun m q => (⟨if FVal.lt m.x q.x then q.x else m.x,
        if FVal.lt m.y q.y then q.y else m.y⟩ : Binary32.Point)) p0).y = FVal.fin d := by
      rw [foldl_fmax_y]
      apply foldl_fmax_eq (fun q => q.y) rest p0.y d
      · obtain ⟨v, hv, _, h2⟩ := coordy p0 hmem0
        exact ⟨v, hv, h2⟩
      · intro q hq
        obtain ⟨v, hv, _, h2⟩ := coordy q (List.mem_cons_of_mem p0 hq)
        exact ⟨v, hv, h2⟩
      · exact split (fun q => q.y) _ hb
    simp only [Binary32.ShapePath.bounds, hx, hy, hX, hY]

/-- `Shape::bounds` in `float` arithmetic, in terms of the path's `bounds`. -/
theorem Shape_bounds_float_of_path (impl : Binary32.Impl) (x0 y0 w0 h0 : FVal)
    (box : FVal × FVal × FVal × FVal) (hb : impl.path.bounds x0 y0 w0 h0 = (true, box)) :
    Binary32.Shape.bounds impl x0 y0 w0 h0 = (0, box, impl) := by
  simp [Binary32.Shape.bounds, hb]

/-! ## Bounds of the generated primitives in `float` arithmetic -/

/-- With a corner radius 0 and a size that is not negative the clamp leaves the
radius 0. -/
theorem clampRadius_zero (w h : ℚ) (hw : 0 ≤ w) (hh : 0 ≤ h) :
    Binary32.clampRadius (FVal.fin w) (FVal.fin h) (FVal.fin 0) = FVal.fin 0 := by
  have hm : ∃ m : ℚ, (if FVal.lt (FVal.fin w) (FVal.fin h) then FVal.fin w else FVal.fin h) =
      FVal.fin m ∧ 0 ≤ m := by
    by_cases hlt : FVal.lt (FVal.fin w) (FVal.fin h) = true
    · exact ⟨w, by rw [if_pos hlt], hw⟩
    · exact ⟨h, by rw [if_neg hlt], hh⟩
  obtain ⟨m, hme, hm0⟩ := hm
  unfold Binary32.clampRadius
  rw [hme, fmul_fin]
  rcases round32_nonneg (m * (1 / 2)) (by linarith) with ⟨v, hv, hv0⟩ | hinf
  · rw [hv]
    have : FVal.lt (FVal.fin v) (FVal.fin 0) = false := by
      simp only [FVal.lt, decide_eq_false_iff_not]
      linarith
    rw [this]
    rfl
  · rw [hinf]
    rfl

/-- The box of the plain rectangle in `float` arithmetic. -/
theorem appendRect_zero_bounds_eval (impl : Binary32.Impl) (x y w h xr yb : ℚ)
    (x0 y0 w0 h0 : FVal) (hempty : impl.path = { cmds := [], pts := [] })
    (hw : 0 ≤ w) (hh : 0 ≤ h)
    (hx : round32 x = FVal.fin x) (hy : round32 y = FVal.fin y)
    (hxr : fadd (FVal.fin x) (FVal.fin w) = FVal.fin xr)
    (hyb : fadd (FVal.fin y) (FVal.fin h) = FVal.fin yb) :
    (Binary32.Shape.appendRect impl (FVal.fin x) (FVal.fin y) (FVal.fin w) (FVal.fin h)
      (FVal.fin 0)).1 = 0 ∧
    Binary32.Shape.bounds
        (Binary32.Shape.appendRect impl (FVal.fin x) (FVal.fin y) (FVal.fin w) (FVal.fin h)
          (FVal.fin 0)).2 x0 y0 w0 h0 =
      (0, (FVal.fin x, FVal.fin y, fsub (FVal.fin xr) (FVal.fin x),
            fsub (FVal.fin yb) (FVal.fin y)),
        (Binary32.Shape.appendRect impl (FVal.fin x) (FVal.fin y) (FVal.fin w) (FVal.fin h)
          (FVal.fin 0)).2) := by
  have hxle : x ≤ xr := by
    rw [fadd_fin] at hxr
    exact round32_fin_mono x (x + w) x xr hx hxr (by linarith)
  have hyle : y ≤ yb := by
    rw [fadd_fin] at hyb
    exact round32_fin_mono y (y + h) y yb hy hyb (by linarith)
  have hzero : FVal.eq (FVal.fin 0) (FVal.fin 0) = true := by simp [FVal.eq]
  rw [appendRect_float_unfold, clampRadius_zero w h hw hh, hzero, if_pos rfl]
  refine ⟨rfl, ?_⟩
  apply Shape_bounds_float_of_path
  simp only [hempty, List.nil_append, hxr, hyb]
  apply bounds_float_of_box
  · simp only [List.forall_mem_cons]
    refine ⟨⟨x, y, rfl, ?_, ?_, ?_, ?_⟩, ⟨xr, y, rfl, ?_, ?_, ?_, ?_⟩,
      ⟨xr, yb, rfl, ?_, ?_, ?_, ?_⟩, ⟨x, yb, rfl, ?_, ?_, ?_, ?_⟩, ?_⟩ <;>
      first | linarith | (intro q hq; cases hq)
  · exact ⟨⟨FVal.fin x, FVal.fin y⟩, by simp, rfl⟩
  · exact ⟨⟨FVal.fin xr, FVal.fin y⟩, by simp, rfl⟩
  · exact ⟨⟨FVal.fin x, FVal.fin y⟩, by simp, rfl⟩
  · exact ⟨⟨FVal.fin x, FVal.fin yb⟩, by simp, rfl⟩

/-- C15 (amended): for every finite `float` `x`, `y` and every `w ≥ 0`, `h ≥ 0`
whose `float` sums `x + w` and `y + h` do not overflow, `appendRect(x, y, w, h,
0)` on an empty path followed by `bounds()` succeeds (result 0) and yields the
box `(x, y, (x + w) - x, (y + h) - y)`, each operation being the rounded `float`
operation; when the two sums are exact and `w` and `h` are `float` values this
is exactly `(x, y, w, h)`. -/
theorem appendRect_zero_bounds_float (impl : Binary32.Impl) (x y w h xr yb : ℚ)
    (x0 y0 w0 h0 : FVal) (hempty : impl.path = { cmds := [], pts := [] })
    (hw : 0 ≤ w) (hh : 0 ≤ h)
    (hx : round32 x = FVal.fin x) (hy : round32 y = FVal.fin y)
    (hxr : fadd (FVal.fin x) (FVal.fin w) = FVal.fin xr)
    (hyb : fadd (FVal.fin y) (FVal.fin h) = FVal.fin yb) :
    (Binary32.Shape.appendRect impl (FVal.fin x) (FVal.fin y) (FVal.fin w) (FVal.fin h)
      (FVal.fin 0)).1 = 0 ∧
    Binary32.Shape.bounds
        (Binary32.Shape.appendRect impl (FVal.fin x) (FVal.fin y) (FVal.fin w) (FVal.fin h)
          (FVal.fin 0)).2 x0 y0 w0 h0 =
      (0, (FVal.fin x, FVal.fin y, fsub (FVal.fin xr) (FVal.fin x),
            fsub (FVal.fin yb) (FVal.fin y)),
        (Binary32.Shape.appendRect impl (FVal.fin x) (FVal.fin y) (FVal.fin w) (FVal.fin h)
          (FVal.fin 0)).2) ∧
    (xr = x + w → yb = y + h → round32 w = FVal.fin w → round32 h = FVal.fin h →
      Binary32.Shape.bounds
          (Binary32.Shape.appendRect impl (FVal.fin x) (FVal.fin y) (FVal.fin w) (FVal.fin h)
            (FVal.fin 0)).2 x0 y0 w0 h0 =
        (0, (FVal.fin x, FVal.fin y, FVal.fin w, FVal.fin h),
          (Binary32.Shape.appendRect impl (FVal.fin x) (FVal.fin y) (FVal.fin w) (FVal.fin h)
            (FVal.fin 0)).2)) := by
  obtain ⟨h1, h2⟩ := appendRect_zero_bounds_eval impl x y w h xr yb x0 y0 w0 h0 hempty hw hh
    hx hy hxr hyb
  refine ⟨h1, h2, ?_⟩
  intro exr eyb hwf hhf
  rw [h2, fsub_fin, fsub_fin, exr, eyb, add_sub_cancel_left, add_sub_cancel_left, hwf, hhf]

/-- The witness of amended C15: a 10 × 6 rectangle at `(1, 2)`. -/
theorem appendRect_zero_bounds_float_witness :
    Binary32.Shape.bounds
        (Binary32.Shape.appendRect Binary32.emptyShape (FVal.fin 1) (FVal.fin 2) (FVal.fin 10)
          (FVal.fin 6) (FVal.fin 0)).2 (FVal.fin 0) (FVal.fin 0) (FVal.fin 0) (FVal.fin 0) =
      (0, (FVal.fin 1, FVal.fin 2, FVal.fin 10, FVal.fin 6),
        (Binary32.Shape.appendRect Binary32.emptyShape (FVal.fin 1) (FVal.fin 2) (FVal.fin 10)
          (FVal.fin 6) (FVal.fin 0)).2) := by
  have hxr : fadd (FVal.fin 1) (FVal.fin 10) = FVal.fin 11 := by
    rw [fadd_fin]
    apply round32_exact _ _ 11 0 <;> norm_num
  have hyb : fadd (FVal.fin 2) (FVal.fin 6) = FVal.fin 8 := by
    rw [fadd_fin]
    apply round32_exact _ _ 8 0 <;> norm_num
  exact (appendRect_zero_bounds_float Binary32.emptyShape 1 2 10 6 11 8 (FVal.fin 0) (FVal.fin 0)
    (FVal.fin 0) (FVal.fin 0) rfl (by norm_num) (by norm_num)
    (by apply round32_exact _ _ 1 0 <;> norm_num) (by apply round32_exact _ _ 2 0 <;> norm_num)
    hxr hyb).2.2 (by norm_num) (by norm_num)
    (by apply round32_exact _ _ 10 0 <;> norm_num) (by apply round32_exact _ _ 6 0 <;> norm_num)

/-- At `2²⁴` the spacing of the `float` values is 2: `2²⁴ + 1` is a tie and
rounds to the even neighbour `2²⁴`. -/
theorem round32_two_pow_24_add_one : round32 (16777216 + 1) = FVal.fin 16777216 := by
  apply round32_eval_pos _ 24 1 8388608
  · norm_num
  · norm_num
  · norm_num
  · have : (16777216 + 1 : ℚ) / 2 ^ (1 : Int) = ((8388608 : Int) : ℚ) + 1 / 2 := by norm_num
    rw [this, rne_tie]
    norm_num
  · norm_num
  · norm_num

/-- C15, as stated, fails also for a non-negative size: at `x = 2²⁴`, `w = h =
1` the `float` sum `x + w` rounds to `x`, so the box is `(2²⁴, 0, 0, 1)`, of
width 0, not `(2²⁴, 0, 1, 1)`. -/
theorem appendRect_zero_bounds_rounds_width_away :
    Binary32.Shape.bounds
        (Binary32.Shape.appendRect Binary32.emptyShape (FVal.fin 16777216) (FVal.fin 0)
          (FVal.fin 1) (FVal.fin 1) (FVal.fin 0)).2
        (FVal.fin 0) (FVal.fin 0) (FVal.fin 0) (FVal.fin 0) =
      (0, (FVal.fin 16777216, FVal.fin 0, FVal.fin 0, FVal.fin 1),
        (Binary32.Shape.appendRect Binary32.emptyShape (FVal.fin 16777216) (FVal.fin 0)
          (FVal.fin 1) (FVal.fin 1) (FVal.fin 0)).2) ∧
    ((FVal.fin 16777216, FVal.fin 0, FVal.fin 0, FVal.fin 1) : FVal × FVal × FVal × FVal) ≠
      (FVal.fin 16777216, FVal.fin 0, FVal.fin 1, FVal.fin 1) := by
  have hxr : fadd (FVal.fin 16777216) (FVal.fin 1) = FVal.fin 16777216 := by
    rw [fadd_fin, round32_two_pow_24_add_one]
  have hyb : fadd (FVal.fin 0) (FVal.fin 1) = FVal.fin 1 := by
    rw [fadd_fin]
    apply round32_exact _ _ 1 0 <;> norm_num
  have key := (appendRect_zero_bounds_eval Binary32.emptyShape 16777216 0 1 1 16777216 1
    (FVal.fin 0) (FVal.fin 0) (FVal.fin 0) (FVal.fin 0) rfl (by norm_num) (by norm_num)
    (by apply round32_exact _ _ 1 24 <;> norm_num) round32_zero hxr hyb).2
  have hw0 : fsub (FVal.fin 16777216) (FVal.fin 16777216) = FVal.fin 0 := by
    rw [fsub_fin]
    apply round32_exact _ _ 0 0 <;> norm_num
  have hh1 : fsub (FVal.fin 1) (FVal.fin 0) = FVal.fin 1 := by
    rw [fsub_fin]
    apply round32_exact _ _ 1 0 <;> norm_num
  rw [hw0, hh1] at key
  refine ⟨key, ?_⟩
  intro heq
  have h3 := congrArg (fun t => t.2.2.1) heq
  simp only [FVal.fin.injEq] at h3
  norm_num at h3

theorem appendCircle_float_path (impl : Binary32.Impl) (cx cy radiusW radiusH : FVal) :
    (Binary32.Shape.appendCircle impl cx cy radiusW radiusH).2.path =
      { cmds := impl.path.cmds ++ [PathCommand.MoveTo, PathCommand.CubicTo, PathCommand.CubicTo,
          PathCommand.CubicTo, PathCommand.CubicTo, PathCommand.Close],
        pts := impl.path.pts ++
          [⟨cx, fsub cy radiusH⟩,
           ⟨fadd cx (fmul radiusW Binary32.PATH_KAPPA), fsub cy radiusH⟩,
           ⟨fadd cx radiusW, fsub cy (fmul radiusH Binary32.PATH_KAPPA)⟩,
           ⟨fadd cx radiusW, cy⟩,
           ⟨fadd cx radiusW, fadd cy (fmul radiusH Binary32.PATH_KAPPA)⟩,
           ⟨fadd cx (fmul radiusW Binary32.PATH_KAPPA), fadd cy radiusH⟩,
           ⟨cx, fadd cy radiusH⟩,
           ⟨fsub cx (fmul radiusW Binary32.PATH_KAPPA), fadd cy radiusH⟩,
           ⟨fsub cx radiusW, fadd cy (fmul radiusH Binary32.PATH_KAPPA)⟩,
           ⟨fsub cx radiusW, cy⟩,
           ⟨fsub cx radiusW, fsub cy (fmul radiusH Binary32.PATH_KAPPA)⟩,
           ⟨fsub cx (fmul radiusW Binary32.PATH_KAPPA), fsub cy radiusH⟩,
           ⟨cx, fsub cy radiusH⟩] } := by
  simp only [Binary32.Shape.appendCircle, Binary32.ShapePath.grow, Binary32.ShapePath.moveTo,
    Binary32.ShapePath.cubicTo, Binary32.ShapePath.close, List.append_assoc, List.cons_append,
    List.nil_append, List.singleton_append]

/-- The `float` product `r * PATH_KAPPA` of a `float` `r ≥ 0` lies between 0
and `r`. -/
theorem kappa_mul_float (r : ℚ) (hr : 0 ≤ r) (hrr : round32 r = FVal.fin r) :
    ∃ rk : ℚ, fmul (FVal.fin r) Binary32.PATH_KAPPA = FVal.fin rk ∧ 0 ≤ rk ∧ rk ≤ r := by
  rw [PATH_KAPPA_eq, fmul_fin]
  have h1 : 0 ≤ r * (2316447 / 4194304) := by positivity
  have h2 : r * (2316447 / 4194304) ≤ r := by nlinarith
  exact round32_between 0 _ r 0 r round32_zero hrr h1 h2

/-- The box of the circle in `float` arithmetic. -/
theorem appendCircle_bounds_eval (impl : Binary32.Impl) (cx cy r xl xr yt yb : ℚ)
    (x0 y0 w0 h0 : FVal) (hempty : impl.path = { cmds := [], pts := [] }) (hr : 0 ≤ r)
    (hcx : round32 cx = FVal.fin cx) (hcy : round32 cy = FVal.fin cy)
    (hrr : round32 r = FVal.fin r)
    (hxl : fsub (FVal.fin cx) (FVal.fin r) = FVal.fin xl)
    (hxr : fadd (FVal.fin cx) (FVal.fin r) = FVal.fin xr)
    (hyt : fsub (FVal.fin cy) (FVal.fin r) = FVal.fin yt)
    (hyb : fadd (FVal.fin cy) (FVal.fin r) = FVal.fin yb) :
    Binary32.Shape.bounds
        (Binary32.Shape.appendCircle impl (FVal.fin cx) (FVal.fin cy) (FVal.fin r)
          (FVal.fin r)).2 x0 y0 w0 h0 =
      (0, (FVal.fin xl, FVal.fin yt, fsub (FVal.fin xr) (FVal.fin xl),
            fsub (FVal.fin yb) (FVal.fin yt)),
        (Binary32.Shape.appendCircle impl (FVal.fin cx) (FVal.fin cy) (FVal.fin r)
          (FVal.fin r)).2) := by
  obtain ⟨rk, hk, hk0, hkr⟩ := kappa_mul_float r hr hrr
  have hxl' : round32 (cx - r) = FVal.fin xl := by rw [← fsub_fin]; exact hxl
  have hxr' : round32 (cx + r) = FVal.fin xr := by rw [← fadd_fin]; exact hxr
  have hyt' : round32 (cy - r) = FVal.fin yt := by rw [← fsub_fin]; exact hyt
  have hyb' : round32 (cy + r) = FVal.fin yb := by rw [← fadd_fin]; exact hyb
  obtain ⟨v1, e1, a1, b1⟩ := round32_between cx (cx + rk) (cx + r) cx xr hcx hxr'
    (by linarith) (by linarith)
  obtain ⟨v2, e2, a2, b2⟩ := round32_between (cx - r) (cx - rk) cx xl cx hxl' hcx
    (by linarith) (by linarith)
  obtain ⟨u1, f1, c1, d1⟩ := round32_between cy (cy + rk) (cy + r) cy yb hcy hyb'
    (by linarith) (by linarith)
  obtain ⟨u2, f2, c2, d2⟩ := round32_between (cy - r) (cy - rk) cy yt cy hyt' hcy
    (by linarith) (by linarith)
  have hx1 : xl ≤ cx := round32_fin_mono (cx - r) cx xl cx hxl' hcx (by linarith)
  have hx2 : cx ≤ xr := round32_fin_mono cx (cx + r) cx xr hcx hxr' (by linarith)
  have hy1 : yt ≤ cy := round32_fin_mono (cy - r) cy yt cy hyt' hcy (by linarith)
  have hy2 : cy ≤ yb := round32_fin_mono cy (cy + r) cy yb hcy hyb' (by linarith)
  rw [← fadd_fin] at e1 f1
  rw [← fsub_fin] at e2 f2
  apply Shape_bounds_float_of_path
  rw [appendCircle_float_path]
  simp only [hempty, List.nil_append, hk, e1, e2, f1, f2, hxl, hxr, hyt, hyb]
  apply bounds_float_of_box
  · simp only [List.forall_mem_cons]
    refine ⟨⟨_, _, rfl, ?_, ?_, ?_, ?_⟩, ⟨_, _, rfl, ?_, ?_, ?_, ?_⟩, ⟨_, _, rfl, ?_, ?_, ?_, ?_⟩,
      ⟨_, _, rfl, ?_, ?_, ?_, ?_⟩, ⟨_, _, rfl, ?_, ?_, ?_, ?_⟩, ⟨_, _, rfl, ?_, ?_, ?_, ?_⟩,
      ⟨_, _, rfl, ?_, ?_, ?_, ?_⟩, ⟨_, _, rfl, ?_, ?_, ?_, ?_⟩, ⟨_, _, rfl, ?_, ?_, ?_, ?_⟩,
      ⟨_, _, rfl, ?_, ?_, ?_, ?_⟩, ⟨_, _, rfl, ?_, ?_, ?_, ?_⟩, ⟨_, _, rfl, ?_, ?_, ?_, ?_⟩,
      ⟨_, _, rfl, ?_, ?_, ?_, ?_⟩, ?_⟩ <;>
      first | linarith | (intro q hq; cases hq)
  · exact ⟨⟨FVal.fin xl, FVal.fin cy⟩, by simp, rfl⟩
  · exact ⟨⟨FVal.fin xr, FVal.fin cy⟩, by simp, rfl⟩
  · exact ⟨⟨FVal.fin cx, FVal.fin yt⟩, by simp, rfl⟩
  · exact ⟨⟨FVal.fin cx, FVal.fin yb⟩, by simp, rfl⟩

/-- C14 (amended): for every finite `float` `cx`, `cy` and `r ≥ 0` whose `float`
sums `cx ± r` and `cy ± r` do not overflow, `appendCircle(cx, cy, r, r)` on an
empty path followed by `bounds()` succeeds (result 0) and yields the box
`(cx - r, cy - r, (cx + r) - (cx - r), (cy + r) - (cy - r))`, each operation
being the rounded `float` operation, that is `(cx - r, cy - r, 2r, 2r)` within
floating-point rounding; when the four sums are exact and `2r` is a `float`
value it is exactly `(cx - r, cy - r, 2r, 2r)`. -/
theorem appendCircle_bounds_float (impl : Binary32.Impl) (cx cy r xl xr yt yb : ℚ)
    (x0 y0 w0 h0 : FVal) (hempty : impl.path = { cmds := [], pts := [] }) (hr : 0 ≤ r)
    (hcx : round32 cx = FVal.fin cx) (hcy : round32 cy = FVal.fin cy)
    (hrr : round32 r = FVal.fin r)
    (hxl : fsub (FVal.fin cx) (FVal.fin r) = FVal.fin xl)
    (hxr : fadd (FVal.fin cx) (FVal.fin r) = FVal.fin xr)
    (hyt : fsub (FVal.fin cy) (FVal.fin r) = FVal.fin yt)
    (hyb : fadd (FVal.fin cy) (FVal.fin r) = FVal.fin yb) :
    (Binary32.Shape.appendCircle impl (FVal.fin cx) (FVal.fin cy) (FVal.fin r)
      (FVal.fin r)).1 = 0 ∧
    Binary32.Shape.bounds
        (Binary32.Shape.appendCircle impl (FVal.fin cx) (FVal.fin cy) (FVal.fin r)
          (FVal.fin r)).2 x0 y0 w0 h0 =
      (0, (FVal.fin xl, FVal.fin yt, fsub (FVal.fin xr) (FVal.fin xl),
            fsub (FVal.fin yb) (FVal.fin yt)),
        (Binary32.Shape.appendCircle impl (FVal.fin cx) (FVal.fin cy) (FVal.fin r)
          (FVal.fin r)).2) ∧
    (xl = cx - r → xr = cx + r → yt = cy - r → yb = cy + r →
      round32 (2 * r) = FVal.fin (2 * r) →
      Binary32.Shape.bounds
          (Binary32.Shape.appendCircle impl (FVal.fin cx) (FVal.fin cy) (FVal.fin r)
            (FVal.fin r)).2 x0 y0 w0 h0 =
        (0, (FVal.fin (cx - r), FVal.fin (cy - r), FVal.fin (2 * r), FVal.fin (2 * r)),
          (Binary32.Shape.appendCircle impl (FVal.fin cx) (FVal.fin cy) (FVal.fin r)
            (FVal.fin r)).2)) := by
  have key := appendCircle_bounds_eval impl cx cy r xl xr yt yb x0 y0 w0 h0 hempty hr hcx hcy
    hrr hxl hxr hyt hyb
  refine ⟨rfl, key, ?_⟩
  intro exl exr eyt eyb h2r
  have hwx : xr - xl = 2 * r := by rw [exl, exr]; ring
  have hwy : yb - yt = 2 * r := by rw [eyt, eyb]; ring
  rw [key, fsub_fin, fsub_fin, hwx, hwy, h2r, exl, eyt]

/-- The witness of amended C14: the circle of radius 2 centred at `(5, 7)`. -/
theorem appendCircle_bounds_float_witness :
    Binary32.Shape.bounds
        (Binary32.Shape.appendCircle Binary32.emptyShape (FVal.fin 5) (FVal.fin 7) (FVal.fin 2)
          (FVal.fin 2)).2 (FVal.fin 0) (FVal.fin 0) (FVal.fin 0) (FVal.fin 0) =
      (0, (FVal.fin (5 - 2), FVal.fin (7 - 2), FVal.fin (2 * 2), FVal.fin (2 * 2)),
        (Binary32.Shape.appendCircle Binary32.emptyShape (FVal.fin 5) (FVal.fin 7) (FVal.fin 2)
          (FVal.fin 2)).2) := by
  have hxl : fsub (FVal.fin 5) (FVal.fin 2) = FVal.fin 3 := by
    rw [fsub_fin]
    apply round32_exact _ _ 3 0 <;> norm_num
  have hxr : fadd (FVal.fin 5) (FVal.fin 2) = FVal.fin 7 := by
    rw [fadd_fin]
    apply round32_exact _ _ 7 0 <;> norm_num
  have hyt : fsub (FVal.fin 7) (FVal.fin 2) = FVal.fin 5 := by
    rw [fsub_fin]
    apply round32_exact _ _ 5 0 <;> norm_num
  have hyb : fadd (FVal.fin 7) (FVal.fin 2) = FVal.fin 9 := by
    rw [fadd_fin]
    apply round32_exact _ _ 9 0 <;> norm_num
  exact (appendCircle_bounds_float Binary32.emptyShape 5 7 2 3 7 5 9 (FVal.fin 0) (FVal.fin 0)
    (FVal.fin 0) (FVal.fin 0) rfl (by norm_num)
    (by apply round32_exact _ _ 5 0 <;> norm_num) (by apply round32_exact _ _ 7 0 <;> norm_num)
    (by apply round32_exact _ _ 2 0 <;> norm_num) hxl hxr hyt hyb).2.2
    (by norm_num) (by norm_num) (by norm_num) (by norm_num)
    (by apply round32_exact _ _ 4 0 <;> norm_num)

/-- C14, as stated, fails also for a non-negative radius: at `cx = 2²⁴`, `r = 1`
the `float` sum `cx + r` rounds to `2²⁴`, so the box is `(2²⁴ - 1, -1, 1, 2)`,
of width 1, not `(cx - r, cy - r, 2r, 2r) = (2²⁴ - 1, -1, 2, 2)`. -/
theorem appendCircle_bounds_rounds_width :
    Binary32.Shape.bounds
        (Binary32.Shape.appendCircle Binary32.emptyShape (FVal.fin 16777216) (FVal.fin 0)
          (FVal.fin 1) (FVal.fin 1)).2
        (FVal.fin 0) (FVal.fin 0) (FVal.fin 0) (FVal.fin 0) =
      (0, (FVal.fin 16777215, FVal.fin (-1), FVal.fin 1, FVal.fin 2),
        (Binary32.Shape.appendCircle Binary32.emptyShape (FVal.fin 16777216) (FVal.fin 0)
          (FVal.fin 1) (FVal.fin 1)).2) ∧
    ((FVal.fin 16777215, FVal.fin (-1), FVal.fin 1, FVal.fin 2) : FVal × FVal × FVal × FVal) ≠
      (FVal.fin (16777216 - 1), FVal.fin (0 - 1), FVal.fin (2 * 1), FVal.fin (2 * 1)) := by
  have hxl : fsub (FVal.fin 16777216) (FVal.fin 1) = FVal.fin 16777215 := by
    rw [fsub_fin]
    apply round32_exact _ _ 16777215 0 <;> norm_num
  have hxr : fadd (FVal.fin 16777216) (FVal.fin 1) = FVal.fin 16777216 := by
    rw [fadd_fin, round32_two_pow_24_add_one]
  have hyt : fsub (FVal.fin 0) (FVal.fin 1) = FVal.fin (-1) := by
    rw [fsub_fin]
    apply round32_exact _ _ (-1) 0 <;> norm_num
  have hyb : fadd (FVal.fin 0) (FVal.fin 1) = FVal.fin 1 := by
    rw [fadd_fin]
    apply round32_exact _ _ 1 0 <;> norm_num
  have key := appendCircle_bounds_eval Binary32.emptyShape 16777216 0 1 16777215 16777216 (-1) 1
    (FVal.fin 0) (FVal.fin 0) (FVal.fin 0) (FVal.fin 0) rfl (by norm_num)
    (by apply round32_exact _ _ 1 24 <;> norm_num) round32_zero
    (by apply round32_exact _ _ 1 0 <;> norm_num) hxl hxr hyt hyb
  have hw : fsub (FVal.fin 16777216) (FVal.fin 16777215) = FVal.fin 1 := by
    rw [fsub_fin]
    apply round32_exact _ _ 1 0 <;> norm_num
  have hh : fsub (FVal.fin 1) (FVal.fin (-1)) = FVal.fin 2 := by
    rw [fsub_fin]
    apply round32_exact _ _ 2 0 <;> norm_num
  rw [hw, hh] at key
  refine ⟨key, ?_⟩
  intro heq
  have h3 := congrArg (fun t => t.2.2.1) heq
  simp only [FVal.fin.injEq] at h3
  norm_num at h3

end Tvg
